import Mathlib

/-!
Verification development for the board-state core of the pulse chess engine
(`src/main/cpp/position.cpp`) and its FEN codec (`src/main/cpp/notation.cpp`).

Squares are modelled as `Int` in the 0x88 encoding `rank * 16 + file`
(the encoding is pinned by `toSquare` in notation.cpp, which computes
`(rank << 4) + file`).  Machine 64-bit hash values are modelled as `Nat`
under bitwise exclusive-or, which is faithful because every operation the
code performs on them is an exclusive-or (closed on any bit width).
Occupancy bitboards are modelled as finite sets of squares; the header
that declares them is not part of the sources, so they are modelled from
the spec's description ("per-color, per-piece-type membership sets over
squares, supporting add/remove/count/first-member queries").
-/

namespace Pulse

/- Modelled from the spec: the color constants of the missing color header.
`opposite` is the bit flip used by `color::opposite`. -/
namespace color

def WHITE : Nat := 0

def BLACK : Nat := 1

def NOCOLOR : Nat := 2

def opposite (c : Nat) : Nat := c ^^^ 1

end color

/- Modelled from the spec: piece-type constants and values of the missing
piecetype header; the exact point values are irrelevant to every claim
(only that each piece type has a fixed value that is added by `put` and
subtracted by `remove`). -/
namespace PieceType

def PAWN : Nat := 0

def KNIGHT : Nat := 1

def BISHOP : Nat := 2

def ROOK : Nat := 3

def QUEEN : Nat := 4

def KING : Nat := 5

def NOPIECETYPE : Nat := 6

def getValue (t : Nat) : Int :=
  if t = PAWN then 100
  else if t = KNIGHT then 325
  else if t = BISHOP then 325
  else if t = ROOK then 500
  else if t = QUEEN then 975
  else if t = KING then 20000
  else 0

end PieceType

/- Modelled from the spec: "a (color, piece-type) pair packed into an
integer; a reserved no-piece sentinel marks empty cells" (the piece header
is not under src/).  The packing `color * 6 + piecetype` carries exactly the
information the source accessors expose. -/
namespace piece

def NOPIECE : Nat := 12

def valueOf (c piecetype : Nat) : Nat := c * 6 + piecetype

def getType (p : Nat) : Nat := p % 6

def getColor (p : Nat) : Nat := p / 6

def isValid (p : Nat) : Bool := p < 12

end piece

/- Modelled from the spec: the four castling-right flags packed into a
bitmask (castling header not under src/): white/black x kingside/queenside. -/
namespace castling

def NOCASTLING : Nat := 0

def WHITE_KINGSIDE : Nat := 1

def WHITE_QUEENSIDE : Nat := 2

def BLACK_KINGSIDE : Nat := 4

def BLACK_QUEENSIDE : Nat := 8

def KINGSIDE : Nat := 0

def QUEENSIDE : Nat := 1

def NOCASTLINGTYPE : Nat := 2

def valueOf (c t : Nat) : Nat := 1 <<< (2 * c + t)

def getType (m : Nat) : Nat :=
  if m = WHITE_KINGSIDE ∨ m = BLACK_KINGSIDE then KINGSIDE
  else if m = WHITE_QUEENSIDE ∨ m = BLACK_QUEENSIDE then QUEENSIDE
  else NOCASTLINGTYPE

def getColor (m : Nat) : Nat :=
  if m = WHITE_KINGSIDE ∨ m = WHITE_QUEENSIDE then color.WHITE
  else if m = BLACK_KINGSIDE ∨ m = BLACK_QUEENSIDE then color.BLACK
  else color.NOCOLOR

end castling

/- Modelled from the spec: the move-type constants of the missing movetype
header; only their distinctness matters. -/
namespace movetype

def NORMAL : Nat := 0

def PAWNDOUBLE : Nat := 1

def PAWNPROMOTION : Nat := 2

def ENPASSANT : Nat := 3

def CASTLING : Nat := 4

end movetype

/- Square geometry in the 0x88 encoding `rank * 16 + file`, pinned by
`toSquare` in notation.cpp.  `isValid` models `(square & 0x88) == 0` on
C++ `int`: any negative int has bit 7 or a higher bit set in two's
complement on the reachable range, so validity is `0 ≤ sq < 128` together
with the mask test.  Directions are modelled from the spec's "directional
offsets" in this encoding. -/
namespace Square

def NOSQUARE : Int := 127

def N : Int := 16

def E : Int := 1

def S : Int := -16

def W : Int := -1

def NE : Int := 17

def NW : Int := 15

def SE : Int := -15

def SW : Int := -17

def valueOf (file rank : Int) : Int := rank * 16 + file

def getFile (sq : Int) : Int := sq % 16

def getRank (sq : Int) : Int := sq / 16

def isValid (sq : Int) : Bool := 0 ≤ sq && sq < 128 && sq.toNat &&& 136 == 0

def a1 : Int := 0

def b1 : Int := 1

def c1 : Int := 2

def d1 : Int := 3

def e1 : Int := 4

def f1 : Int := 5

def g1 : Int := 6

def h1 : Int := 7

def a8 : Int := 112

def c8 : Int := 114

def d8 : Int := 115

def e8 : Int := 116

def f8 : Int := 117

def g8 : Int := 118

def h8 : Int := 119

def pawnDirections (c : Nat) : List Int :=
  if c = color.WHITE then [N, NE, NW] else [S, SE, SW]

def knightDirections : List Int := [33, 31, 18, 14, -31, -33, -18, -14]

def bishopDirections : List Int := [NE, NW, SE, SW]

def rookDirections : List Int := [N, E, S, W]

def kingDirections : List Int := [NE, NW, SE, SW, N, E, S, W]

end Square

/- Modelled from the spec: occupancy sets "supporting add/remove/count/first
member queries" (bitboard header not under src/), as finite sets of squares. -/
namespace bitboard

def add (sq : Int) (bb : Finset Int) : Finset Int := insert sq bb

def remove (sq : Int) (bb : Finset Int) : Finset Int := bb.erase sq

def size (bb : Finset Int) : Nat := bb.card

def next (bb : Finset Int) : Int :=
  if h : bb.Nonempty then bb.min' h else Square.NOSQUARE

end bitboard

/-- The snapshot pushed by `makeMove` and popped by `undoMove`
(`Position::State` in the header, fields as used by position.cpp). -/
structure State where
  zobristKey : Nat
  castlingRights : Nat
  enPassantSquare : Int
  halfmoveClock : Int
deriving DecidableEq, Repr

/-- The process-wide zobrist table (`Position::Zobrist`).  The constructor
fills one entry per (piece, square) pair, the four single castling flags,
the two same-color combinations, one entry per en-passant square, and the
side-to-move flag, all from a seeded random source; the values themselves
are arbitrary, so the table is modelled as arbitrary functions. -/
structure Zobrist where
  board : Nat → Int → Nat
  castlingRights : Nat → Nat
  enPassantSquare : Int → Nat
  activeColor : Nat

/-- The constraints the `Zobrist` constructor does establish: the two
same-color combination entries are the exclusive-or of their flag entries.
Entries at other combination indices (including index 0) are left
uninitialized by the constructor and hence unconstrained. -/
def Zobrist.wellFormed (z : Zobrist) : Prop :=
  z.castlingRights 3 = z.castlingRights 1 ^^^ z.castlingRights 2
    ∧ z.castlingRights 12 = z.castlingRights 4 ^^^ z.castlingRights 8

/-- The move value: an opaque descriptor exposing exactly the accessors
move.h provides to position.cpp (modelled from the spec's "Move value"
interface contract). -/
structure Move where
  type : Nat
  originSquare : Int
  targetSquare : Int
  originPiece : Nat
  targetPiece : Nat
  promotion : Nat

/-- The aggregate position state: board array, occupancy sets, material,
castling rights, en-passant square, active color, halfmove clock, zobrist
key, halfmove number and the history stack (fields as used by position.cpp). -/
structure Position where
  board : Int → Nat
  pieces : Nat → Nat → Finset Int
  material : Nat → Int
  castlingRights : Nat
  enPassantSquare : Int
  activeColor : Nat
  halfmoveClock : Int
  zobristKey : Nat
  halfmoveNumber : Int
  states : Nat → State
  statesSize : Int

/-- The freshly constructed position: `board.fill(NOPIECE)` plus the header
member initializers.  Modelled from the spec for the missing header: no
pieces, no castling rights, no en-passant square, white to move, halfmove
clock 0, and fullmove number defaulting to 1 (hence halfmove number 2,
matching `getFullmoveNumber = halfmoveNumber / 2`). -/
def Position.initial : Position where
  board := fun _ => piece.NOPIECE
  pieces := fun _ _ => ∅
  material := fun _ => 0
  castlingRights := castling.NOCASTLING
  enPassantSquare := Square.NOSQUARE
  activeColor := color.WHITE
  halfmoveClock := 0
  zobristKey := 0
  halfmoveNumber := 2
  states := fun _ => ⟨0, castling.NOCASTLING, Square.NOSQUARE, 0⟩
  statesSize := 0

/-- `Position::put` (position.cpp lines 195-204). -/
def Position.put (z : Zobrist) (p : Nat) (sq : Int) (pos : Position) : Position :=
  let piecetype := piece.getType p
  let c := piece.getColor p
  { pos with
    board := fun s => if s = sq then p else pos.board s
    pieces := fun c2 t2 =>
      if c2 = c ∧ t2 = piecetype then bitboard.add sq (pos.pieces c2 t2) else pos.pieces c2 t2
    material := fun c2 =>
      if c2 = c then pos.material c2 + PieceType.getValue piecetype else pos.material c2
    zobristKey := pos.zobristKey ^^^ z.board p sq }

/-- `Position::remove` (position.cpp lines 213-226): returns the removed
piece together with the updated position. -/
def Position.remove (z : Zobrist) (sq : Int) (pos : Position) : Nat × Position :=
  let p := pos.board sq
  let piecetype := piece.getType p
  let c := piece.getColor p
  (p,
  { pos with
    board := fun s => if s = sq then piece.NOPIECE else pos.board s
    pieces := fun c2 t2 =>
      if c2 = c ∧ t2 = piecetype then bitboard.remove sq (pos.pieces c2 t2) else pos.pieces c2 t2
    material := fun c2 =>
      if c2 = c then pos.material c2 - PieceType.getValue piecetype else pos.material c2
    zobristKey := pos.zobristKey ^^^ z.board p sq })

/-- `Position::setActiveColor`. -/
def Position.setActiveColor (z : Zobrist) (c : Nat) (pos : Position) : Position :=
  if pos.activeColor ≠ c then
    { pos with
      activeColor := c
      zobristKey := pos.zobristKey ^^^ z.activeColor }
  else pos

/-- `Position::setCastlingRight`. -/
def Position.setCastlingRight (z : Zobrist) (c : Nat) (pos : Position) : Position :=
  if pos.castlingRights &&& c = castling.NOCASTLING then
    { pos with
      castlingRights := pos.castlingRights ||| c
      zobristKey := pos.zobristKey ^^^ z.castlingRights c }
  else pos

/-- `Position::setEnPassantSquare`. -/
def Position.setEnPassantSquare (z : Zobrist) (sq : Int) (pos : Position) : Position :=
  let k1 := if pos.enPassantSquare ≠ Square.NOSQUARE then
      pos.zobristKey ^^^ z.enPassantSquare pos.enPassantSquare
    else pos.zobristKey
  let k2 := if sq ≠ Square.NOSQUARE then k1 ^^^ z.enPassantSquare sq else k1
  { pos with
    enPassantSquare := sq
    zobristKey := k2 }

/-- `Position::setHalfmoveClock`. -/
def Position.setHalfmoveClock (n : Int) (pos : Position) : Position :=
  { pos with halfmoveClock := n }

/-- `Position::getFullmoveNumber`: truncating division as on C++ `int`
(the halfmove number is never negative on the paths the claims exercise,
where truncating and euclidean division agree). -/
def Position.getFullmoveNumber (pos : Position) : Int := Int.tdiv pos.halfmoveNumber 2

/-- `Position::setFullmoveNumber`. -/
def Position.setFullmoveNumber (n : Int) (pos : Position) : Position :=
  let h := n * 2
  { pos with halfmoveNumber := if pos.activeColor = color.BLACK then h + 1 else h }

/-- The switch of `Position::clearCastling` (position.cpp lines 393-414):
`some` of the new rights for the six squares with a case, `none` for the
default branch that returns without touching the position.
`r - (r &&& mask)` is `r & ~mask` on the bits of `mask`. -/
def Position.clearCastlingAux (r : Nat) (sq : Int) : Option Nat :=
  if sq = Square.a1 then some (r - (r &&& castling.WHITE_QUEENSIDE))
  else if sq = Square.a8 then some (r - (r &&& castling.BLACK_QUEENSIDE))
  else if sq = Square.h1 then some (r - (r &&& castling.WHITE_KINGSIDE))
  else if sq = Square.h8 then some (r - (r &&& castling.BLACK_KINGSIDE))
  else if sq = Square.e1 then
    some (r - (r &&& (castling.WHITE_KINGSIDE ||| castling.WHITE_QUEENSIDE)))
  else if sq = Square.e8 then
    some (r - (r &&& (castling.BLACK_KINGSIDE ||| castling.BLACK_QUEENSIDE)))
  else none

/-- `Position::clearCastling` (position.cpp lines 390-420).  The source
assigns `castlingRights = newCastlingRights` first and only then computes
the table index `newCastlingRights ^ castlingRights`, which therefore
reads the already-updated field: the index is always 0.  The model mirrors
that order through `updated`. -/
def Position.clearCastling (z : Zobrist) (sq : Int) (pos : Position) : Position :=
  match Position.clearCastlingAux pos.castlingRights sq with
  | none => pos
  | some newCastlingRights =>
    if newCastlingRights ≠ pos.castlingRights then
      let updated := { pos with castlingRights := newCastlingRights }
      { updated with
        zobristKey := updated.zobristKey ^^^
          z.castlingRights (newCastlingRights ^^^ updated.castlingRights) }
    else pos

/-- The capture square of a move: the target square, or the square one rank
behind the target for an en-passant capture (computed identically in
`makeMove` and `undoMove`). -/
def Move.captureSquare (m : Move) : Int :=
  if m.type = movetype.ENPASSANT then
    m.targetSquare + (if piece.getColor m.originPiece = color.WHITE then Square.S else Square.N)
  else m.targetSquare

/-- The rook origin/target squares of the `switch (targetSquare)` in the
castling branches of `makeMove`/`undoMove`; `none` is the `default:` case
that throws. -/
def Move.castlingRookSquares (targetSquare : Int) : Option (Int × Int) :=
  if targetSquare = Square.g1 then some (Square.h1, Square.f1)
  else if targetSquare = Square.c1 then some (Square.a1, Square.d1)
  else if targetSquare = Square.g8 then some (Square.h8, Square.f8)
  else if targetSquare = Square.c8 then some (Square.a8, Square.d8)
  else none

/-- `Position::makeMove` (position.cpp lines 228-321); `none` models the
exception thrown on a non-canonical castling target square. -/
def Position.makeMove (z : Zobrist) (m : Move) (pos : Position) : Option Position :=
  let entry : State := ⟨pos.zobristKey, pos.castlingRights, pos.enPassantSquare, pos.halfmoveClock⟩
  let p0 := { pos with
    states := fun i => if i = pos.statesSize.toNat then entry else pos.states i
    statesSize := pos.statesSize + 1 }
  let originColor := piece.getColor m.originPiece
  let p1 := if m.targetPiece ≠ piece.NOPIECE then
      Position.clearCastling z m.captureSquare (Position.remove z m.captureSquare p0).2
    else p0
  let p2 := (Position.remove z m.originSquare p1).2
  let p3 := if m.type = movetype.PAWNPROMOTION then
      Position.put z (piece.valueOf originColor m.promotion) m.targetSquare p2
    else Position.put z m.originPiece m.targetSquare p2
  (if m.type = movetype.CASTLING then
    (Move.castlingRookSquares m.targetSquare).map (fun rs =>
      let rr := Position.remove z rs.1 p3
      Position.put z rr.1 rs.2 rr.2)
  else some p3).map (fun p4 =>
    let p5 := Position.clearCastling z m.originSquare p4
    let k := if p5.enPassantSquare ≠ Square.NOSQUARE then
        p5.zobristKey ^^^ z.enPassantSquare p5.enPassantSquare
      else p5.zobristKey
    let p6 := if m.type = movetype.PAWNDOUBLE then
        let ep := m.targetSquare +
          (if originColor = color.WHITE then Square.S else Square.N)
        { p5 with
          enPassantSquare := ep
          zobristKey := k ^^^ z.enPassantSquare ep }
      else
        { p5 with
          enPassantSquare := Square.NOSQUARE
          zobristKey := k }
    let p7 := { p6 with
      activeColor := color.opposite p6.activeColor
      zobristKey := p6.zobristKey ^^^ z.activeColor }
    let p8 := if piece.getType m.originPiece = PieceType.PAWN ∨ m.targetPiece ≠ piece.NOPIECE then
        { p7 with halfmoveClock := 0 }
      else { p7 with halfmoveClock := p7.halfmoveClock + 1 }
    { p8 with halfmoveNumber := p8.halfmoveNumber + 1 })

/-- `Position::undoMove` (position.cpp lines 323-388); `none` models the
exception thrown on a non-canonical castling target square. -/
def Position.undoMove (z : Zobrist) (m : Move) (pos : Position) : Option Position :=
  let p1 := { pos with
    halfmoveNumber := pos.halfmoveNumber - 1
    activeColor := color.opposite pos.activeColor }
  (if m.type = movetype.CASTLING then
    (Move.castlingRookSquares m.targetSquare).map (fun rs =>
      let rr := Position.remove z rs.2 p1
      Position.put z rr.1 rs.1 rr.2)
  else some p1).map (fun p2 =>
    let p3 := Position.put z m.originPiece m.originSquare
      (Position.remove z m.targetSquare p2).2
    let p4 := if m.targetPiece ≠ piece.NOPIECE then
        Position.put z m.targetPiece m.captureSquare p3
      else p3
    let newSize := p4.statesSize - 1
    let e := p4.states newSize.toNat
    { p4 with
      statesSize := newSize
      halfmoveClock := e.halfmoveClock
      enPassantSquare := e.enPassantSquare
      castlingRights := e.castlingRights
      zobristKey := e.zobristKey })

/-- The backward scan of `Position::isRepetition` (position.cpp lines
164-169): compare the snapshot at index `i`, then step back by two, while
`i` stays at or above the window bound `j`. -/
def Position.repSearch (states : Nat → State) (key : Nat) (j : Int) (i : Int) : Bool :=
  if h : j ≤ i then
    ((states i.toNat).zobristKey == key) || Position.repSearch states key j (i - 2)
  else false
termination_by (i - j + 2).toNat
decreasing_by omega

/-- `Position::isRepetition` (position.cpp lines 162-172). -/
def Position.isRepetition (pos : Position) : Bool :=
  let j := max 0 (pos.statesSize - pos.halfmoveClock)
  Position.repSearch pos.states pos.zobristKey j (pos.statesSize - 2)

/-- `Position::hasInsufficientMaterial` (position.cpp lines 174-186). -/
def Position.hasInsufficientMaterial (pos : Position) : Bool :=
  bitboard.size (pos.pieces color.WHITE PieceType.PAWN) == 0
  && bitboard.size (pos.pieces color.BLACK PieceType.PAWN) == 0
  && bitboard.size (pos.pieces color.WHITE PieceType.ROOK) == 0
  && bitboard.size (pos.pieces color.BLACK PieceType.ROOK) == 0
  && bitboard.size (pos.pieces color.WHITE PieceType.QUEEN) == 0
  && bitboard.size (pos.pieces color.BLACK PieceType.QUEEN) == 0
  && decide (bitboard.size (pos.pieces color.WHITE PieceType.KNIGHT)
      + bitboard.size (pos.pieces color.WHITE PieceType.BISHOP) ≤ 1)
  && decide (bitboard.size (pos.pieces color.BLACK PieceType.KNIGHT)
      + bitboard.size (pos.pieces color.BLACK PieceType.BISHOP) ≤ 1)

/-- The non-sliding overload of `Position::isAttacked` (position.cpp lines
478-488). -/
def Position.isAttackedNonSliding (pos : Position) (targetSquare : Int)
    (attackerPiece : Nat) (directions : List Int) : Bool :=
  directions.any (fun direction =>
    let attackerSquare := targetSquare + direction
    Square.isValid attackerSquare && pos.board attackerSquare == attackerPiece)

/-- One ray of the sliding overload of `Position::isAttacked` (position.cpp
lines 494-510): step outward while squares are valid and empty; the first
occupied square decides.  The fuel argument only bounds the iteration
count; a ray stays inside the 128-slot board and moves by a nonzero offset
each step, so it runs for at most 128 iterations and fuel 129 is never
exhausted on the direction sets the code uses. -/
def Position.slide (pos : Position) (attackerPiece queenPiece : Nat) (direction : Int) :
    Nat → Int → Bool
  | 0, _ => false
  | fuel + 1, attackerSquare =>
    if Square.isValid attackerSquare then
      let p := pos.board attackerSquare
      if piece.isValid p then p == attackerPiece || p == queenPiece
      else Position.slide pos attackerPiece queenPiece direction fuel (attackerSquare + direction)
    else false

/-- The sliding overload of `Position::isAttacked` (position.cpp lines
493-513). -/
def Position.isAttackedSliding (pos : Position) (targetSquare : Int)
    (attackerPiece queenPiece : Nat) (directions : List Int) : Bool :=
  directions.any (fun direction =>
    Position.slide pos attackerPiece queenPiece direction 129 (targetSquare + direction))

/-- The main overload of `Position::isAttacked` (position.cpp lines 440-473):
pawn checks (skipping index 0 of the pawn direction set, the push
direction), then knight, bishop/queen, rook/queen and king checks. -/
def Position.isAttacked (pos : Position) (targetSquare : Int) (attackerColor : Nat) : Bool :=
  let pawnPiece := piece.valueOf attackerColor PieceType.PAWN
  ((Square.pawnDirections attackerColor).drop 1).any (fun direction =>
    let attackerSquare := targetSquare - direction
    Square.isValid attackerSquare && pos.board attackerSquare == pawnPiece)
  || Position.isAttackedNonSliding pos targetSquare
      (piece.valueOf attackerColor PieceType.KNIGHT) Square.knightDirections
  || Position.isAttackedSliding pos targetSquare
      (piece.valueOf attackerColor PieceType.BISHOP)
      (piece.valueOf attackerColor PieceType.QUEEN) Square.bishopDirections
  || Position.isAttackedSliding pos targetSquare
      (piece.valueOf attackerColor PieceType.ROOK)
      (piece.valueOf attackerColor PieceType.QUEEN) Square.rookDirections
  || Position.isAttackedNonSliding pos targetSquare
      (piece.valueOf attackerColor PieceType.KING) Square.kingDirections

/-- The list of the 64 valid squares, used for from-scratch hash
recomputation. -/
def validSquares : List Int :=
  ((List.range 128).map (Int.ofNat)).filter (fun sq => Square.isValid sq)

/-- The from-scratch zobrist hash the spec's invariant describes: the
exclusive-or of the table entry of every occupied (piece, square) pair,
the contribution of every active castling flag (the table is exclusive-or
linear on same-color flag combinations by construction), the en-passant
entry when a square is set, and the side-to-move term (folded in exactly
when black is to move, matching `setActiveColor` from the all-cleared
construction state). -/
def computeHash (z : Zobrist) (pos : Position) : Nat :=
  (validSquares.foldl (fun h sq =>
    if pos.board sq ≠ piece.NOPIECE then h ^^^ z.board (pos.board sq) sq else h) 0)
  ^^^ ([castling.WHITE_KINGSIDE, castling.WHITE_QUEENSIDE,
        castling.BLACK_KINGSIDE, castling.BLACK_QUEENSIDE].foldl (fun h f =>
    if pos.castlingRights &&& f ≠ 0 then h ^^^ z.castlingRights f else h) 0)
  ^^^ (if pos.enPassantSquare ≠ Square.NOSQUARE then z.enPassantSquare pos.enPassantSquare else 0)
  ^^^ (if pos.activeColor = color.BLACK then z.activeColor else 0)

/-- An all-zero zobrist table: a legitimate table instance (the generator's
values are unconstrained), used for concrete evaluations. -/
def zZero : Zobrist where
  board := fun _ _ => 0
  castlingRights := fun _ => 0
  enPassantSquare := fun _ => 0
  activeColor := 0

/-- ASCII uppercase test, as `std::isupper` behaves in the "C" locale on
the characters the codec handles. -/
def asciiIsUpper (c : Char) : Bool := 'A' ≤ c && c ≤ 'Z'

/-- ASCII lowercase test (`std::islower`). -/
def asciiIsLower (c : Char) : Bool := 'a' ≤ c && c ≤ 'z'

/-- ASCII lowering (`std::tolower`). -/
def asciiToLower (c : Char) : Char :=
  if asciiIsUpper c then Char.ofNat (c.toNat + 32) else c

/-- ASCII raising (`std::toupper`). -/
def asciiToUpper (c : Char) : Char :=
  if asciiIsLower c then Char.ofNat (c.toNat - 32) else c

/- Modelled from the spec: the file constants of the missing file header
(files a..h as 0..7 plus a no-file sentinel). -/
namespace file

def a : Int := 0

def h : Int := 7

def NOFILE : Int := 8

def isValid (f : Int) : Bool := 0 ≤ f && f < 8

def values : List Int := [0, 1, 2, 3, 4, 5, 6, 7]

end file

/- Modelled from the spec: the rank constants of the missing rank header
(ranks 1..8 as 0..7 plus a no-rank sentinel). -/
namespace Rank

def r1 : Int := 0

def r3 : Int := 2

def r6 : Int := 5

def r8 : Int := 7

def NORANK : Int := 8

def isValid (r : Int) : Bool := 0 ≤ r && r < 8

def valuesReversed : List Int := [7, 6, 5, 4, 3, 2, 1, 0]

end Rank

/- The FEN codec, `Notation` in notation.cpp. -/
namespace Fen

/-- `Notation::toColor` (notation.cpp lines 261-271): lowercase first, then
match `w`/`b`. -/
def toColor (c : Char) : Nat :=
  let lowercase := asciiToLower c
  if lowercase = 'w' then color.WHITE
  else if lowercase = 'b' then color.BLACK
  else color.NOCOLOR

/-- `Notation::fromColor`. -/
def fromColor (c : Nat) : Option Char :=
  if c = color.WHITE then some 'w'
  else if c = color.BLACK then some 'b'
  else none

/-- `Notation::colorOf`: lowercase letters denote black. -/
def colorOf (c : Char) : Nat :=
  if asciiIsLower c then color.BLACK else color.WHITE

/-- `Notation::transform`: raise for white, lower for black, fail otherwise. -/
def transform (c : Char) (col : Nat) : Option Char :=
  if col = color.WHITE then some (asciiToUpper c)
  else if col = color.BLACK then some (asciiToLower c)
  else none

/-- `Notation::toPieceType` (uppercase first, then match the six letters). -/
def toPieceType (c : Char) : Nat :=
  let u := asciiToUpper c
  if u = 'P' then PieceType.PAWN
  else if u = 'N' then PieceType.KNIGHT
  else if u = 'B' then PieceType.BISHOP
  else if u = 'R' then PieceType.ROOK
  else if u = 'Q' then PieceType.QUEEN
  else if u = 'K' then PieceType.KING
  else PieceType.NOPIECETYPE

/-- `Notation::fromPieceType`; `none` is the thrown exception. -/
def fromPieceType (t : Nat) : Option Char :=
  if t = PieceType.PAWN then some 'P'
  else if t = PieceType.KNIGHT then some 'N'
  else if t = PieceType.BISHOP then some 'B'
  else if t = PieceType.ROOK then some 'R'
  else if t = PieceType.QUEEN then some 'Q'
  else if t = PieceType.KING then some 'K'
  else none

/-- `Notation::toPiece`. -/
def toPiece (c : Char) : Nat :=
  let col := colorOf c
  let piecetype := toPieceType c
  if piecetype ≠ PieceType.NOPIECETYPE then piece.valueOf col piecetype else piece.NOPIECE

/-- `Notation::fromPiece`. -/
def fromPiece (p : Nat) : Option Char :=
  match fromPieceType (piece.getType p) with
  | none => none
  | some c => transform c (piece.getColor p)

/-- `Notation::toCastlingType`. -/
def toCastlingType (c : Char) : Nat :=
  let u := asciiToUpper c
  if u = 'K' then castling.KINGSIDE
  else if u = 'Q' then castling.QUEENSIDE
  else castling.NOCASTLINGTYPE

/-- `Notation::fromCastlingType`. -/
def fromCastlingType (t : Nat) : Option Char :=
  if t = castling.KINGSIDE then some 'K'
  else if t = castling.QUEENSIDE then some 'Q'
  else none

/-- `Notation::toCastling`. -/
def toCastling (c : Char) : Nat :=
  let col := colorOf c
  let ct := toCastlingType c
  if ct ≠ castling.NOCASTLINGTYPE then castling.valueOf col ct else castling.NOCASTLING

/-- `Notation::fromCastling`. -/
def fromCastling (m : Nat) : Option Char :=
  match fromCastlingType (castling.getType m) with
  | none => none
  | some c => transform c (castling.getColor m)

/-- `Notation::toFile` (lowercase first). -/
def toFile (c : Char) : Int :=
  let l := asciiToLower c
  if l = 'a' then 0
  else if l = 'b' then 1
  else if l = 'c' then 2
  else if l = 'd' then 3
  else if l = 'e' then 4
  else if l = 'f' then 5
  else if l = 'g' then 6
  else if l = 'h' then 7
  else file.NOFILE

/-- `Notation::fromFile`. -/
def fromFile (f : Int) : Option Char :=
  if f = 0 then some 'a'
  else if f = 1 then some 'b'
  else if f = 2 then some 'c'
  else if f = 3 then some 'd'
  else if f = 4 then some 'e'
  else if f = 5 then some 'f'
  else if f = 6 then some 'g'
  else if f = 7 then some 'h'
  else none

/-- `Notation::toRank`. -/
def toRank (c : Char) : Int :=
  if c = '1' then 0
  else if c = '2' then 1
  else if c = '3' then 2
  else if c = '4' then 3
  else if c = '5' then 4
  else if c = '6' then 5
  else if c = '7' then 6
  else if c = '8' then 7
  else Rank.NORANK

/-- `Notation::fromRank`. -/
def fromRank (r : Int) : Option Char :=
  if r = 0 then some '1'
  else if r = 1 then some '2'
  else if r = 2 then some '3'
  else if r = 3 then some '4'
  else if r = 4 then some '5'
  else if r = 5 then some '6'
  else if r = 6 then some '7'
  else if r = 7 then some '8'
  else none

/-- `Notation::fromSquare`: file letter followed by rank digit. -/
def fromSquare (sq : Int) : Option (List Char) :=
  match fromFile (Square.getFile sq) with
  | none => none
  | some fc =>
    match fromRank (Square.getRank sq) with
    | none => none
    | some rc => some [fc, rc]

/-- The token split of `toPosition`: `getline` on the space separator,
keeping only nonempty tokens. -/
def splitTokens : List Char → List Char → List (List Char)
  | [], acc => if acc.isEmpty then [] else [acc.reverse]
  | c :: rest, acc =>
    if c = ' ' then
      if acc.isEmpty then splitTokens rest [] else acc.reverse :: splitTokens rest []
    else splitTokens rest (c :: acc)

/-- The value of a maximal leading digit run, `none` when there is none:
the digits `std::stoi` consumes. -/
def digitsPrefixVal (l : List Char) : Option Nat :=
  let ds := l.takeWhile (fun c => '0' ≤ c && c ≤ '9')
  if ds.isEmpty then none
  else some (ds.foldl (fun n c => n * 10 + (c.toNat - 48)) 0)

/-- `std::stoi` on a token: optional sign, then a nonempty digit run,
ignoring any trailing characters; `none` models the exception when no
digits are found. -/
def stoi (l : List Char) : Option Int :=
  match l with
  | '-' :: rest => (digitsPrefixVal rest).map (fun n => -(n : Int))
  | '+' :: rest => (digitsPrefixVal rest).map (fun n => (n : Int))
  | _ => (digitsPrefixVal l).map (fun n => (n : Int))

/-- The piece-placement loop of `Notation::toPosition` (notation.cpp lines
41-83), walking the first token character by character with the current
file and rank; `none` models every thrown parse failure. -/
def parsePieces (z : Zobrist) : List Char → Int → Int → Position → Option Position
  | [], _, _, pos => some pos
  | ch :: rest, fl, rk, pos =>
    let p := toPiece ch
    if p ≠ piece.NOPIECE then
      if file.isValid fl && Rank.isValid rk then
        let pos2 := Position.put z p (Square.valueOf fl rk) pos
        let fl2 := if fl = file.h then file.NOFILE else fl + 1
        parsePieces z rest fl2 rk pos2
      else none
    else if ch = '/' then
      if fl ≠ file.NOFILE ∨ rk = Rank.r1 then none
      else parsePieces z rest file.a (rk - 1) pos
    else
      match stoi [ch] with
      | none => none
      | some emptySquares =>
        if emptySquares < 1 ∨ 8 < emptySquares then none
        else
          let flB := fl + emptySquares - 1
          if file.isValid flB then
            let fl2 := if flB = file.h then file.NOFILE else flB + 1
            parsePieces z rest fl2 rk pos
          else none

/-- The castling-token loop of `Notation::toPosition` (notation.cpp lines
101-134), including the file-letter branch for non-standard rook files. -/
def parseCastling (z : Zobrist) : List Char → Position → Option Position
  | [], pos => some pos
  | ch :: rest, pos =>
    let cast := toCastling ch
    if cast ≠ castling.NOCASTLING then
      parseCastling z rest (Position.setCastlingRight z cast pos)
    else
      let castlingFile := toFile ch
      if castlingFile = file.NOFILE then none
      else
        let col := colorOf ch
        if pos.pieces col PieceType.KING = ∅ then none
        else
          let kingFile := Square.getFile (bitboard.next (pos.pieces col PieceType.KING))
          let cast2 := if castlingFile > kingFile then castling.valueOf col castling.KINGSIDE
            else castling.valueOf col castling.QUEENSIDE
          parseCastling z rest (Position.setCastlingRight z cast2 pos)

/-- The active-color stage of `Notation::toPosition` (notation.cpp lines
86-96): the token must be a single character naming a known color. -/
def colorStage (t2 : List Char) : Option Nat :=
  match t2 with
  | [c] =>
    let activeColor := toColor c
    if activeColor = color.NOCOLOR then none else some activeColor
  | _ => none

/-- The en-passant stage of `Notation::toPosition` (notation.cpp lines
137-152): a dash, or a two-character square whose rank matches the side to
move. -/
def epStage (z : Zobrist) (activeColor : Nat) (t4 : List Char) (pos : Position) :
    Option Position :=
  if t4 = ['-'] then some pos
  else
    match t4 with
    | [cf, cr] =>
      let epFile := toFile cf
      let epRank := toRank cr
      if (activeColor = color.BLACK ∧ epRank = Rank.r3)
          ∨ (activeColor = color.WHITE ∧ epRank = Rank.r6) then
        some (Position.setEnPassantSquare z (Square.valueOf epFile epRank) pos)
      else none
    | _ => none

/-- The optional halfmove-clock and fullmove-number stage of
`Notation::toPosition` (notation.cpp lines 155-176). -/
def clockStage (rest : List (List Char)) (pos : Position) : Option Position :=
  match rest with
  | [] => some pos
  | t5 :: rest2 =>
    match stoi t5 with
    | none => none
    | some n =>
      if n < 0 then none
      else
        let pos5 := Position.setHalfmoveClock n pos
        match rest2 with
        | [] => some pos5
        | t6 :: _ =>
          match stoi t6 with
          | none => none
          | some fm =>
            if fm < 1 then none
            else some (Position.setFullmoveNumber fm pos5)

/-- The token-level body of `Notation::toPosition`: piece placement, active
color, castling availability, en-passant square, then the optional
counters, each failure propagating (`Option.bind` models the exception
flow). -/
def toPositionTokens (z : Zobrist) : List (List Char) → Option Position
  | t1 :: t2 :: t3 :: t4 :: rest =>
    (parsePieces z t1 file.a Rank.r8 Position.initial).bind (fun pos1 =>
      (colorStage t2).bind (fun activeColor =>
        let pos2 := Position.setActiveColor z activeColor pos1
        (if t3 = ['-'] then some pos2 else parseCastling z t3 pos2).bind (fun pos3 =>
          (epStage z activeColor t4 pos3).bind (fun pos4 =>
            clockStage rest pos4))))
  | _ => none

/-- `Notation::toPosition` (notation.cpp lines 19-179): split into tokens,
check the token count, then run the token-level stages; `none` models every
thrown parse failure. -/
def toPosition (z : Zobrist) (fen : String) : Option Position :=
  let tokens := splitTokens fen.toList []
  if tokens.length < 4 ∨ 6 < tokens.length then none
  else toPositionTokens z tokens

/-- Decimal digits of a count (`std::to_string` on a nonnegative value). -/
def digitChars (n : Nat) : List Char := (Nat.repr n).toList

/-- `std::to_string` on a C++ int. -/
def intChars (n : Int) : List Char :=
  if n < 0 then '-' :: digitChars n.natAbs else digitChars n.natAbs

/-- One rank of `Notation::fromPosition`'s piece loop: walk the files,
counting runs of empty squares and flushing the count before each piece
letter and at the end of the rank. -/
def emitRank (pos : Position) (rk : Int) : List Int → Nat → Option (List Char)
  | [], empt => some (if 0 < empt then digitChars empt else [])
  | f :: fs, empt =>
    let p := pos.board (Square.valueOf f rk)
    if p = piece.NOPIECE then emitRank pos rk fs (empt + 1)
    else
      match fromPiece p with
      | none => none
      | some pc =>
        match emitRank pos rk fs 0 with
        | none => none
        | some tail => some ((if 0 < empt then digitChars empt else []) ++ pc :: tail)

/-- The rank loop of `Notation::fromPosition`, highest rank first, with a
slash after every rank above the first. -/
def emitRanks (pos : Position) : List Int → Option (List Char)
  | [] => some []
  | rk :: rks =>
    match emitRank pos rk file.values 0 with
    | none => none
    | some rowChars =>
      match emitRanks pos rks with
      | none => none
      | some tail =>
        some (rowChars ++ (if rk > Rank.r1 then '/' :: tail else tail))

/-- The castling field of `Notation::fromPosition`: the four flags in the
order K, Q, k, q, or a dash when none is set. -/
def castlingField (pos : Position) : Option (List Char) :=
  let addFlag := fun (flag : Nat) (acc : Option (List Char)) =>
    match acc with
    | none => none
    | some l =>
      if pos.castlingRights &&& flag ≠ castling.NOCASTLING then
        match fromCastling flag with
        | none => none
        | some c => some (l ++ [c])
      else some l
  match addFlag castling.BLACK_QUEENSIDE (addFlag castling.BLACK_KINGSIDE
      (addFlag castling.WHITE_QUEENSIDE (addFlag castling.WHITE_KINGSIDE (some [])))) with
  | none => none
  | some l => some (if l.isEmpty then ['-'] else l)

/-- `Notation::fromPosition` (notation.cpp lines 181-259). -/
def fromPosition (pos : Position) : Option String :=
  match emitRanks pos Rank.valuesReversed with
  | none => none
  | some placement =>
    match fromColor pos.activeColor with
    | none => none
    | some colorChar =>
      match castlingField pos with
      | none => none
      | some castlingChars =>
        match (if pos.enPassantSquare ≠ Square.NOSQUARE
          then fromSquare pos.enPassantSquare else some ['-']) with
        | none => none
        | some epChars =>
          some (String.mk (placement ++ ' ' :: colorChar :: ' ' :: castlingChars
            ++ ' ' :: epChars ++ ' ' :: intChars pos.halfmoveClock
            ++ ' ' :: intChars pos.getFullmoveNumber))

/-- `Notation::STANDARDPOSITION`. -/
def STANDARDPOSITION : String := "rnbqkbnr/pppppppp/8/8/8/8/PPPPPPPP/RNBQKBNR w KQkq - 0 1"

end Fen

/-- The property C6 states for one ray: walking outward from the target
square in direction `d`, some step `k ≥ 1` lands on the first occupied
square, every strictly earlier step being valid and empty, that square is
valid and occupied, and its occupant is the expected slider piece or the
attacker's queen. -/
def rayHit (board : Int → Nat) (ap qp : Nat) (t d : Int) : Prop :=
  ∃ k : Nat, 1 ≤ k
    ∧ (∀ j : Nat, 1 ≤ j → j < k →
        Square.isValid (t + d * j) = true ∧ piece.isValid (board (t + d * j)) = false)
    ∧ Square.isValid (t + d * k) = true
    ∧ piece.isValid (board (t + d * k)) = true
    ∧ (board (t + d * k) = ap ∨ board (t + d * k) = qp)

/-- A position holding the white-kingside castling right, for the C10
witness. -/
def c10pos : Position := Position.setCastlingRight zZero castling.WHITE_KINGSIDE Position.initial

/-- A concrete zobrist table consistent with everything the `Zobrist`
constructor establishes (see `Zobrist.wellFormed`): the white-kingside
entry is 1, the derived white combination entry is 1 ^^^ 0 = 1, and every
other entry — including the uninitialized combination entry at index 0 —
is 0. -/
def zC2 : Zobrist where
  board := fun _ _ => 0
  castlingRights := fun n => if n = 1 then 1 else if n = 3 then 1 else 0
  enPassantSquare := fun _ => 0
  activeColor := 0

/-- A reachable quiescent position for C2: a white rook on h1 with the
white-kingside castling right set, built through the construction API. -/
def c2pre : Position :=
  Position.setCastlingRight zC2 castling.WHITE_KINGSIDE
    (Position.put zC2 (piece.valueOf color.WHITE PieceType.ROOK) Square.h1 Position.initial)

/-- The quiet rook move h1 to h2 for C2: a legal move meeting the
caller-discipline preconditions that clears the white-kingside right. -/
def c2move : Move :=
  ⟨movetype.NORMAL, Square.h1, 23, piece.valueOf color.WHITE PieceType.ROOK, piece.NOPIECE, 0⟩

/-- A fully consistent position for the C1 counterexample: white king on
e1, white rook on h1, white knight on f1, occupancy sets and board in
exact agreement. -/
def c1pre : Position where
  board := fun sq => if sq = 4 then 5 else if sq = 7 then 3 else if sq = 5 then 1 else 12
  pieces := fun c t =>
    if c = 0 ∧ t = 5 then {4}
    else if c = 0 ∧ t = 3 then {7}
    else if c = 0 ∧ t = 1 then {5}
    else ∅
  material := fun c => if c = 0 then 20825 else 0
  castlingRights := 0
  enPassantSquare := 127
  activeColor := 0
  halfmoveClock := 0
  zobristKey := 0
  halfmoveNumber := 2
  states := fun _ => ⟨0, 0, 127, 0⟩
  statesSize := 0

/-- The white kingside castling move e1-g1 for the C1 counterexample. -/
def c1move : Move :=
  ⟨movetype.CASTLING, Square.e1, Square.g1, piece.valueOf color.WHITE PieceType.KING,
    piece.NOPIECE, 0⟩

/-- A consistent one-piece position (a white pawn on a2) used to witness
the amended make/undo roundtrip at a concrete input. -/
def c1wpos : Position where
  board := fun sq => if sq = 16 then 0 else 12
  pieces := fun c t => if c = 0 ∧ t = 0 then {16} else ∅
  material := fun c => if c = 0 then 100 else 0
  castlingRights := 0
  enPassantSquare := 127
  activeColor := 0
  halfmoveClock := 0
  zobristKey := 0
  halfmoveNumber := 2
  states := fun _ => ⟨0, 0, 127, 0⟩
  statesSize := 0

/-- The quiet pawn push a2-a3 on `c1wpos`. -/
def c1wmove : Move := ⟨movetype.NORMAL, 16, 32, 0, piece.NOPIECE, 0⟩

/-- The full caller-discipline precondition of the makeMove/undoMove pair:
the origin piece sits on its origin square in both representations, origin
and target differ, promotions carry a real piece type, the target square's
occupancy memberships match the encoded target piece, the capture square
holds the target piece, and castling moves are canonical non-captures
whose rook sits on its corner with the rook-transit square empty.  Every
consistent position together with a pseudo-legal move satisfies this. -/
def MakeUndoPre (pos : Position) (m : Move) : Prop :=
  piece.isValid m.originPiece = true
  ∧ pos.board m.originSquare = m.originPiece
  ∧ m.originSquare ∈ pos.pieces (piece.getColor m.originPiece) (piece.getType m.originPiece)
  ∧ m.originSquare ≠ m.targetSquare
  ∧ (m.type = movetype.PAWNPROMOTION → m.promotion < 6)
  ∧ (∀ c < 2, ∀ t < 6, m.targetSquare ∈ pos.pieces c t →
      m.targetPiece ≠ piece.NOPIECE ∧ m.type ≠ movetype.ENPASSANT
        ∧ c = piece.getColor m.targetPiece ∧ t = piece.getType m.targetPiece)
  ∧ (m.targetPiece = piece.NOPIECE ∨ m.type = movetype.ENPASSANT →
      pos.board m.targetSquare = piece.NOPIECE)
  ∧ (m.targetPiece ≠ piece.NOPIECE →
      piece.isValid m.targetPiece = true
        ∧ pos.board m.captureSquare = m.targetPiece
        ∧ m.captureSquare ∈
            pos.pieces (piece.getColor m.targetPiece) (piece.getType m.targetPiece)
        ∧ m.originSquare ≠ m.captureSquare)
  ∧ (m.type = movetype.CASTLING →
      m.targetPiece = piece.NOPIECE
        ∧ (m.targetSquare = Square.g1 ∧ m.originSquare = Square.e1
            ∨ m.targetSquare = Square.c1 ∧ m.originSquare = Square.e1
            ∨ m.targetSquare = Square.g8 ∧ m.originSquare = Square.e8
            ∨ m.targetSquare = Square.c8 ∧ m.originSquare = Square.e8)
        ∧ (match Move.castlingRookSquares m.targetSquare with
           | none => True
           | some (ro, rt) =>
             piece.isValid (pos.board ro) = true
               ∧ ro ∈ pos.pieces (piece.getColor (pos.board ro)) (piece.getType (pos.board ro))
               ∧ pos.board rt = piece.NOPIECE
               ∧ (∀ c < 2, ∀ t < 6, rt ∉ pos.pieces c t)))

/-- Two positions that agree on every field the FEN serializer reads
(everything except the zobrist key and the history stack): the parse path
threads the zobrist table only into the key, so parses of the same text
under different tables are related by this. -/
def keyAgnostic (a b : Position) : Prop :=
  a.board = b.board ∧ a.pieces = b.pieces ∧ a.material = b.material
    ∧ a.castlingRights = b.castlingRights ∧ a.enPassantSquare = b.enPassantSquare
    ∧ a.activeColor = b.activeColor ∧ a.halfmoveClock = b.halfmoveClock
    ∧ a.halfmoveNumber = b.halfmoveNumber

/-- `keyAgnostic` lifted to the parser's optional results: both fail, or
both succeed with related positions. -/
def keyAgnosticO (o1 o2 : Option Position) : Prop :=
  (o1 = none ∧ o2 = none) ∨ ∃ a b, o1 = some a ∧ o2 = some b ∧ keyAgnostic a b

/-! Projection facts: which fields each primitive leaves untouched. -/

@[simp] lemma put_castlingRights (z : Zobrist) (p : Nat) (sq : Int) (pos : Position) :
    (Position.put z p sq pos).castlingRights = pos.castlingRights := rfl

@[simp] lemma put_enPassantSquare (z : Zobrist) (p : Nat) (sq : Int) (pos : Position) :
    (Position.put z p sq pos).enPassantSquare = pos.enPassantSquare := rfl

@[simp] lemma put_activeColor (z : Zobrist) (p : Nat) (sq : Int) (pos : Position) :
    (Position.put z p sq pos).activeColor = pos.activeColor := rfl

@[simp] lemma put_halfmoveClock (z : Zobrist) (p : Nat) (sq : Int) (pos : Position) :
    (Position.put z p sq pos).halfmoveClock = pos.halfmoveClock := rfl

@[simp] lemma put_halfmoveNumber (z : Zobrist) (p : Nat) (sq : Int) (pos : Position) :
    (Position.put z p sq pos).halfmoveNumber = pos.halfmoveNumber := rfl

@[simp] lemma put_states (z : Zobrist) (p : Nat) (sq : Int) (pos : Position) :
    (Position.put z p sq pos).states = pos.states := rfl

@[simp] lemma put_statesSize (z : Zobrist) (p : Nat) (sq : Int) (pos : Position) :
    (Position.put z p sq pos).statesSize = pos.statesSize := rfl

@[simp] lemma remove_fst (z : Zobrist) (sq : Int) (pos : Position) :
    (Position.remove z sq pos).1 = pos.board sq := rfl

@[simp] lemma remove_castlingRights (z : Zobrist) (sq : Int) (pos : Position) :
    (Position.remove z sq pos).2.castlingRights = pos.castlingRights := rfl

@[simp] lemma remove_enPassantSquare (z : Zobrist) (sq : Int) (pos : Position) :
    (Position.remove z sq pos).2.enPassantSquare = pos.enPassantSquare := rfl

@[simp] lemma remove_activeColor (z : Zobrist) (sq : Int) (pos : Position) :
    (Position.remove z sq pos).2.activeColor = pos.activeColor := rfl

@[simp] lemma remove_halfmoveClock (z : Zobrist) (sq : Int) (pos : Position) :
    (Position.remove z sq pos).2.halfmoveClock = pos.halfmoveClock := rfl

@[simp] lemma remove_halfmoveNumber (z : Zobrist) (sq : Int) (pos : Position) :
    (Position.remove z sq pos).2.halfmoveNumber = pos.halfmoveNumber := rfl

@[simp] lemma remove_states (z : Zobrist) (sq : Int) (pos : Position) :
    (Position.remove z sq pos).2.states = pos.states := rfl

@[simp] lemma remove_statesSize (z : Zobrist) (sq : Int) (pos : Position) :
    (Position.remove z sq pos).2.statesSize = pos.statesSize := rfl

@[simp] lemma clearCastling_board (z : Zobrist) (sq : Int) (pos : Position) :
    (Position.clearCastling z sq pos).board = pos.board := by
  unfold Position.clearCastling
  cases Position.clearCastlingAux pos.castlingRights sq <;> simp only [] <;> split <;> rfl

@[simp] lemma clearCastling_pieces (z : Zobrist) (sq : Int) (pos : Position) :
    (Position.clearCastling z sq pos).pieces = pos.pieces := by
  unfold Position.clearCastling
  cases Position.clearCastlingAux pos.castlingRights sq <;> simp only [] <;> split <;> rfl

@[simp] lemma clearCastling_material (z : Zobrist) (sq : Int) (pos : Position) :
    (Position.clearCastling z sq pos).material = pos.material := by
  unfold Position.clearCastling
  cases Position.clearCastlingAux pos.castlingRights sq <;> simp only [] <;> split <;> rfl

@[simp] lemma clearCastling_enPassantSquare (z : Zobrist) (sq : Int) (pos : Position) :
    (Position.clearCastling z sq pos).enPassantSquare = pos.enPassantSquare := by
  unfold Position.clearCastling
  cases Position.clearCastlingAux pos.castlingRights sq <;> simp only [] <;> split <;> rfl

@[simp] lemma clearCastling_activeColor (z : Zobrist) (sq : Int) (pos : Position) :
    (Position.clearCastling z sq pos).activeColor = pos.activeColor := by
  unfold Position.clearCastling
  cases Position.clearCastlingAux pos.castlingRights sq <;> simp only [] <;> split <;> rfl

@[simp] lemma clearCastling_halfmoveClock (z : Zobrist) (sq : Int) (pos : Position) :
    (Position.clearCastling z sq pos).halfmoveClock = pos.halfmoveClock := by
  unfold Position.clearCastling
  cases Position.clearCastlingAux pos.castlingRights sq <;> simp only [] <;> split <;> rfl

@[simp] lemma clearCastling_halfmoveNumber (z : Zobrist) (sq : Int) (pos : Position) :
    (Position.clearCastling z sq pos).halfmoveNumber = pos.halfmoveNumber := by
  unfold Position.clearCastling
  cases Position.clearCastlingAux pos.castlingRights sq <;> simp only [] <;> split <;> rfl

@[simp] lemma clearCastling_states (z : Zobrist) (sq : Int) (pos : Position) :
    (Position.clearCastling z sq pos).states = pos.states := by
  unfold Position.clearCastling
  cases Position.clearCastlingAux pos.castlingRights sq <;> simp only [] <;> split <;> rfl

@[simp] lemma clearCastling_statesSize (z : Zobrist) (sq : Int) (pos : Position) :
    (Position.clearCastling z sq pos).statesSize = pos.statesSize := by
  unfold Position.clearCastling
  cases Position.clearCastlingAux pos.castlingRights sq <;> simp only [] <;> split <;> rfl

/-- C10: `setCastlingRight` with a single flag already contained in the
rights bitmask leaves the position entirely unchanged (rights field and
zobrist hash included): the update and the hash fold happen only when the
flag was previously absent. -/
theorem setCastlingRight_idempotent (z : Zobrist) (pos : Position) (c : Nat)
    (hc : c = castling.WHITE_KINGSIDE ∨ c = castling.WHITE_QUEENSIDE
        ∨ c = castling.BLACK_KINGSIDE ∨ c = castling.BLACK_QUEENSIDE)
    (hin : pos.castlingRights &&& c = c) :
    Position.setCastlingRight z c pos = pos := by
  unfold Position.setCastlingRight
  rw [hin, if_neg]
  rcases hc with h | h | h | h <;> subst h <;> decide

/-- Witness for C10 at a concrete input: the flag is one of the four single
flags and is contained in the rights mask, and setting it again is the
identity. -/
theorem setCastlingRight_idempotent_witness :
    (castling.WHITE_KINGSIDE = castling.WHITE_KINGSIDE
        ∨ castling.WHITE_KINGSIDE = castling.WHITE_QUEENSIDE
        ∨ castling.WHITE_KINGSIDE = castling.BLACK_KINGSIDE
        ∨ castling.WHITE_KINGSIDE = castling.BLACK_QUEENSIDE)
      ∧ c10pos.castlingRights &&& castling.WHITE_KINGSIDE = castling.WHITE_KINGSIDE
      ∧ Position.setCastlingRight zZero castling.WHITE_KINGSIDE c10pos = c10pos :=
  ⟨Or.inl rfl, by decide,
    setCastlingRight_idempotent zZero c10pos castling.WHITE_KINGSIDE (Or.inl rfl) (by decide)⟩

/-- C5: `hasInsufficientMaterial` returns true precisely when neither color
has any pawn, rook or queen in its occupancy sets and, per color, the
number of knights plus the number of bishops is at most one. -/
theorem hasInsufficientMaterial_iff (pos : Position) :
    pos.hasInsufficientMaterial = true ↔
      (pos.pieces color.WHITE PieceType.PAWN = ∅
        ∧ pos.pieces color.BLACK PieceType.PAWN = ∅
        ∧ pos.pieces color.WHITE PieceType.ROOK = ∅
        ∧ pos.pieces color.BLACK PieceType.ROOK = ∅
        ∧ pos.pieces color.WHITE PieceType.QUEEN = ∅
        ∧ pos.pieces color.BLACK PieceType.QUEEN = ∅)
      ∧ (pos.pieces color.WHITE PieceType.KNIGHT).card
          + (pos.pieces color.WHITE PieceType.BISHOP).card ≤ 1
      ∧ (pos.pieces color.BLACK PieceType.KNIGHT).card
          + (pos.pieces color.BLACK PieceType.BISHOP).card ≤ 1 := by
  simp only [Position.hasInsufficientMaterial, bitboard.size, Bool.and_eq_true,
    beq_iff_eq, decide_eq_true_eq, Finset.card_eq_zero]
  tauto

/-- The scan of `repSearch` finds a match exactly when some index of the
form `i - 2 * t` at or above the bound `j` holds the key. -/
lemma repSearch_iff (s : Nat → State) (k : Nat) (j : Int) :
    ∀ i : Int, Position.repSearch s k j i = true ↔
      ∃ t : Nat, j ≤ i - 2 * t ∧ (s (i - 2 * t).toNat).zobristKey = k := by
  have H : ∀ n : Nat, ∀ i : Int, (i - j + 2).toNat ≤ n →
      (Position.repSearch s k j i = true ↔
        ∃ t : Nat, j ≤ i - 2 * t ∧ (s (i - 2 * t).toNat).zobristKey = k) := by
    intro n
    induction n with
    | zero =>
      intro i hi
      rw [Position.repSearch]
      rw [dif_neg (by omega)]
      simp only [Bool.false_eq_true, false_iff, not_exists, not_and]
      intro t ht
      omega
    | succ n ih =>
      intro i hi
      rw [Position.repSearch]
      by_cases h : j ≤ i
      · rw [dif_pos h, Bool.or_eq_true, beq_iff_eq, ih (i - 2) (by omega)]
        constructor
        · rintro (he | ⟨t, ht, hk⟩)
          · exact ⟨0, by simpa using h, by simpa using he⟩
          · refine ⟨t + 1, by push_cast; omega, ?_⟩
            have : i - 2 * ((t : Int) + 1) = i - 2 - 2 * t := by ring
            rw [show ((t : Nat) + 1 : Nat) = (t + 1) from rfl]
            push_cast
            rw [this]
            exact hk
        · rintro ⟨t, ht, hk⟩
          cases t with
          | zero => left; simpa using hk
          | succ t =>
            right
            refine ⟨t, by push_cast at ht ⊢; omega, ?_⟩
            have : i - 2 - 2 * (t : Int) = i - 2 * ((t : Int) + 1) := by ring
            rw [this]
            push_cast at hk ⊢
            exact hk
      · rw [dif_neg h]
        simp only [Bool.false_eq_true, false_iff, not_exists, not_and]
        intro t ht
        omega
  intro i
  exact H (i - j + 2).toNat i le_rfl

/-- C4: `isRepetition` returns true exactly when some saved snapshot at an
index `statesSize - 2 - 2 * t` (stepping back by two from `statesSize - 2`)
that is still at or above the window bound `max 0 (statesSize -
halfmoveClock)` stores a zobrist key equal to the current one; earlier
snapshots and snapshots at odd step distance are never compared. -/
theorem isRepetition_iff (pos : Position) :
    pos.isRepetition = true ↔
      ∃ t : Nat, max 0 (pos.statesSize - pos.halfmoveClock) ≤ pos.statesSize - 2 - 2 * t
        ∧ (pos.states (pos.statesSize - 2 - 2 * t).toNat).zobristKey = pos.zobristKey := by
  unfold Position.isRepetition
  rw [repSearch_iff]

/-- Removing the piece just put on a previously empty square undoes the put
exactly and returns that piece: the generic cancellation both C3 and the
undo path rely on. -/
lemma put_remove_cancel (z : Zobrist) (p : Nat) (sq : Int) (pos : Position)
    (hb : pos.board sq = piece.NOPIECE)
    (hnm : sq ∉ pos.pieces (piece.getColor p) (piece.getType p)) :
    Position.remove z sq (Position.put z p sq pos) = (p, pos) := by
  obtain ⟨bd, pc, mt, cr, ep, ac, hc, zk, hn, st, ss⟩ := pos
  unfold Position.put Position.remove
  simp only [if_pos rfl]
  refine Prod.ext rfl ?_
  rw [Position.mk.injEq]
  refine ⟨?_, ?_, ?_, rfl, rfl, rfl, rfl, ?_, rfl, rfl, rfl⟩
  · funext s
    by_cases h : s = sq
    · subst h
      simpa using hb.symm
    · simp [h]
  · funext c2 t2
    by_cases h : c2 = piece.getColor p ∧ t2 = piece.getType p
    · obtain ⟨h1, h2⟩ := h
      subst h1
      subst h2
      simp only [and_self, if_true, bitboard.add, bitboard.remove]
      exact Finset.erase_insert (by simpa using hnm)
    · simp [h]
  · funext c2
    by_cases h : c2 = piece.getColor p
    · simp [h]
    · simp [h]
  · simp [Nat.xor_assoc, Nat.xor_self, Nat.xor_zero]

/-- Putting back the piece just removed from a square undoes the removal
exactly: the mirror cancellation used by the undo path. -/
lemma remove_put_cancel (z : Zobrist) (p : Nat) (sq : Int) (pos : Position)
    (hb : pos.board sq = p)
    (hm : sq ∈ pos.pieces (piece.getColor p) (piece.getType p)) :
    Position.put z p sq (Position.remove z sq pos).2 = pos := by
  obtain ⟨bd, pc, mt, cr, ep, ac, hc, zk, hn, st, ss⟩ := pos
  simp only at hb hm
  subst hb
  unfold Position.put Position.remove
  rw [Position.mk.injEq]
  refine ⟨?_, ?_, ?_, rfl, rfl, rfl, rfl, ?_, rfl, rfl, rfl⟩
  · funext s
    by_cases h : s = sq
    · subst h
      simp
    · simp [h]
  · funext c2 t2
    by_cases h : c2 = piece.getColor (bd sq) ∧ t2 = piece.getType (bd sq)
    · obtain ⟨h1, h2⟩ := h
      subst h1
      subst h2
      simp only [and_self, if_true, bitboard.add, bitboard.remove]
      exact Finset.insert_erase (by simpa using hm)
    · simp [h]
  · funext c2
    by_cases h : c2 = piece.getColor (bd sq)
    · simp [h]
    · simp [h]
  · simp [Nat.xor_assoc, Nat.xor_self, Nat.xor_zero]

/-- C3: putting a piece on an empty square and then removing it from that
square returns exactly that piece and restores the entire position state —
board array, occupancy sets, material totals, zobrist hash and all
bookkeeping fields — because `remove` exclusive-ors the hash with the same
table entry `put` folded in.  "Empty" is read in both redundant
representations the data model keeps in sync: the board array slot is the
no-piece sentinel and no occupancy set contains the square. -/
theorem put_remove_roundtrip (z : Zobrist) (p : Nat) (sq : Int) (pos : Position)
    (hp : piece.isValid p = true)
    (hv : Square.isValid sq = true)
    (hb : pos.board sq = piece.NOPIECE)
    (hs : ∀ c < 2, ∀ t < 6, sq ∉ pos.pieces c t) :
    Position.remove z sq (Position.put z p sq pos) = (p, pos) := by
  have hplt : p < 12 := by simpa [piece.isValid] using hp
  have hcol : piece.getColor p < 2 := by
    unfold piece.getColor
    omega
  have htyp : piece.getType p < 6 := Nat.mod_lt _ (by norm_num)
  exact put_remove_cancel z p sq pos hb (hs _ hcol _ htyp)

/-- Witness for C3 at a concrete input: a white pawn put on the empty
square a2 of the fresh position and removed again. -/
theorem put_remove_roundtrip_witness :
    (piece.isValid (piece.valueOf color.WHITE PieceType.PAWN) = true
      ∧ Square.isValid 16 = true
      ∧ Position.initial.board 16 = piece.NOPIECE
      ∧ ∀ c < 2, ∀ t < 6, (16 : Int) ∉ Position.initial.pieces c t)
    ∧ Position.remove zZero 16 (Position.put zZero (piece.valueOf color.WHITE PieceType.PAWN) 16
        Position.initial) = (piece.valueOf color.WHITE PieceType.PAWN, Position.initial) :=
  ⟨⟨by decide, by decide, rfl, by decide⟩,
    put_remove_roundtrip zZero (piece.valueOf color.WHITE PieceType.PAWN) 16 Position.initial
      (by decide) (by decide) rfl (by decide)⟩

/-- C9: after `makeMove`, the halfmove clock is zero when the moved origin
piece is a pawn or the move's target piece is not the no-piece sentinel (a
capture), and the pre-move clock plus one otherwise.  The hypothesis is
makeMove's own precondition that a castling move carries one of the four
canonical target squares. -/
theorem makeMove_halfmoveClock (z : Zobrist) (m : Move) (pos : Position)
    (hc : m.type = movetype.CASTLING →
      m.targetSquare = Square.g1 ∨ m.targetSquare = Square.c1
        ∨ m.targetSquare = Square.g8 ∨ m.targetSquare = Square.c8) :
    (Position.makeMove z m pos).map Position.halfmoveClock =
      some (if piece.getType m.originPiece = PieceType.PAWN ∨ m.targetPiece ≠ piece.NOPIECE
        then 0 else pos.halfmoveClock + 1) := by
  unfold Position.makeMove
  by_cases hcast : m.type = movetype.CASTLING
  · have hrs : ∃ ro rt, Move.castlingRookSquares m.targetSquare = some (ro, rt) := by
      rcases hc hcast with h | h | h | h <;> rw [h] <;> exact ⟨_, _, rfl⟩
    obtain ⟨ro, rt, hrs⟩ := hrs
    simp only [hcast, if_true, hrs, Option.map_some', Option.map_map]
    simp [apply_ite Position.halfmoveClock]
  · simp only [hcast, if_false, ite_false, Option.map_some', Option.map_map]
    simp [apply_ite Position.halfmoveClock, hcast]

/-- Witness for C9 at a concrete input: the quiet white-knight move
g1 to f3 from the fresh position (with the knight placed on g1), which is
neither a pawn move nor a capture, so the clock increments. -/
theorem makeMove_halfmoveClock_witness :
    ((⟨movetype.NORMAL, Square.g1, 37, piece.valueOf color.WHITE PieceType.KNIGHT,
        piece.NOPIECE, 0⟩ : Move).type = movetype.CASTLING →
      (⟨movetype.NORMAL, Square.g1, 37, piece.valueOf color.WHITE PieceType.KNIGHT,
        piece.NOPIECE, 0⟩ : Move).targetSquare = Square.g1
        ∨ (⟨movetype.NORMAL, Square.g1, 37, piece.valueOf color.WHITE PieceType.KNIGHT,
            piece.NOPIECE, 0⟩ : Move).targetSquare = Square.c1
        ∨ (⟨movetype.NORMAL, Square.g1, 37, piece.valueOf color.WHITE PieceType.KNIGHT,
            piece.NOPIECE, 0⟩ : Move).targetSquare = Square.g8
        ∨ (⟨movetype.NORMAL, Square.g1, 37, piece.valueOf color.WHITE PieceType.KNIGHT,
            piece.NOPIECE, 0⟩ : Move).targetSquare = Square.c8)
    ∧ (Position.makeMove zZero
        ⟨movetype.NORMAL, Square.g1, 37, piece.valueOf color.WHITE PieceType.KNIGHT,
          piece.NOPIECE, 0⟩ Position.initial).map Position.halfmoveClock =
      some (if piece.getType (piece.valueOf color.WHITE PieceType.KNIGHT) = PieceType.PAWN
          ∨ piece.NOPIECE ≠ piece.NOPIECE
        then 0 else Position.initial.halfmoveClock + 1) :=
  ⟨fun h => absurd h (by decide),
    makeMove_halfmoveClock zZero
      ⟨movetype.NORMAL, Square.g1, 37, piece.valueOf color.WHITE PieceType.KNIGHT,
        piece.NOPIECE, 0⟩ Position.initial (fun h => absurd h (by decide))⟩

/-- Bounds carried by square validity. -/
lemma isValid_bounds {sq : Int} (h : Square.isValid sq = true) : 0 ≤ sq ∧ sq < 128 := by
  simp only [Square.isValid, Bool.and_eq_true, decide_eq_true_eq] at h
  exact ⟨h.1.1, h.1.2⟩

/-- If the source's ray walk accepts, the ray-hit property holds. -/
lemma slide_imp_ray (pos : Position) (ap qp : Nat) (t d : Int) :
    ∀ (fuel : Nat) (i : Nat), 1 ≤ i →
      (∀ j : Nat, 1 ≤ j → j < i →
        Square.isValid (t + d * j) = true ∧ piece.isValid (pos.board (t + d * j)) = false) →
      Position.slide pos ap qp d fuel (t + d * i) = true →
      rayHit pos.board ap qp t d := by
  intro fuel
  induction fuel with
  | zero =>
    intro i _ _ h
    simp [Position.slide] at h
  | succ n ih =>
    intro i hi hpre h
    simp only [Position.slide] at h
    by_cases hv : Square.isValid (t + d * i) = true
    · rw [if_pos hv] at h
      by_cases hocc : piece.isValid (pos.board (t + d * i)) = true
      · rw [if_pos hocc] at h
        refine ⟨i, hi, hpre, hv, hocc, ?_⟩
        simp only [Bool.or_eq_true, beq_iff_eq] at h
        exact h
      · rw [if_neg hocc] at h
        have harr : t + d * (i : Int) + d = t + d * ((i : Nat) + 1 : Nat) := by
          push_cast
          ring
        rw [harr] at h
        refine ih (i + 1) (by omega) ?_ h
        intro j hj1 hj2
        rcases Nat.lt_or_ge j i with hlt | hge
        · exact hpre j hj1 hlt
        · have : j = i := by omega
          subst this
          exact ⟨hv, by simpa using hocc⟩
    · rw [if_neg hv] at h
      exact absurd h (by simp)

/-- If the ray-hit property holds and the direction offset is nonzero, the
source's ray walk accepts with its fuel of 129: between step 1 and the hit
step both squares lie inside the 128-slot board, so at most 128 steps ever
run. -/
lemma ray_imp_slide (pos : Position) (ap qp : Nat) (t d : Int) (hd : d ≠ 0)
    (hr : rayHit pos.board ap qp t d) :
    Position.slide pos ap qp d 129 (t + d) = true := by
  obtain ⟨k, hk1, hpre, hkv, hko, hkhit⟩ := hr
  have hv1 : Square.isValid (t + d * (1 : Nat)) = true := by
    rcases Nat.eq_or_lt_of_le hk1 with h1 | h1
    · rw [← h1] at hkv
      exact hkv
    · exact (hpre 1 le_rfl h1).1
  have hv1x : Square.isValid (t + d) = true := by
    have he : t + d * ((1 : Nat) : Int) = t + d := by
      push_cast
      ring
    rwa [he] at hv1
  have hbound : k ≤ 128 := by
    have b1 := isValid_bounds hv1x
    have bk := isValid_bounds hkv
    have hkk : (1 : Int) ≤ (k : Int) := by exact_mod_cast hk1
    have hX : d * ((k : Int) - 1) = (t + d * (k : Int)) - (t + d) := by ring
    have hub : d * ((k : Int) - 1) < 128 := by
      rw [hX]
      linarith [bk.2, b1.1]
    have hlb : (-128 : Int) < d * ((k : Int) - 1) := by
      rw [hX]
      linarith [bk.1, b1.2]
    by_contra hcon
    have hk129 : (129 : Int) ≤ (k : Int) := by
      have : 129 ≤ k := by omega
      exact_mod_cast this
    rcases lt_or_gt_of_ne hd with hneg | hpos
    · have hdm : d ≤ -1 := by omega
      have hmul : d * ((k : Int) - 1) ≤ -((k : Int) - 1) := by nlinarith
      linarith
    · have h1d : (1 : Int) ≤ d := by omega
      have hmul : (k : Int) - 1 ≤ d * ((k : Int) - 1) := by nlinarith
      linarith
  have main : ∀ (n : Nat) (i : Nat), 1 ≤ i → i ≤ k → k - i < n →
      Position.slide pos ap qp d n (t + d * i) = true := by
    intro n
    induction n with
    | zero =>
      intro i _ _ h
      omega
    | succ n ih =>
      intro i h1 h2 h3
      have hvi : Square.isValid (t + d * i) = true := by
        rcases Nat.eq_or_lt_of_le h2 with rfl | hlt
        · exact hkv
        · exact (hpre i h1 hlt).1
      rcases Nat.eq_or_lt_of_le h2 with rfl | hlt
      · simp only [Position.slide]
        rw [if_pos hvi, if_pos hko]
        rcases hkhit with h | h <;> simp [h]
      · have hemp : piece.isValid (pos.board (t + d * i)) = false := (hpre i h1 hlt).2
        simp only [Position.slide]
        rw [if_pos hvi, if_neg (by simp [hemp])]
        have harr : t + d * (i : Int) + d = t + d * ((i : Nat) + 1 : Nat) := by
          push_cast
          ring
        rw [harr]
        exact ih (i + 1) (by omega) (by omega) (by omega)
  have h1 := main 129 1 le_rfl hk1 (by omega)
  simpa using h1

/-- On a nonzero direction offset, the source ray walk from the square one
step out accepts exactly when the ray-hit property holds. -/
lemma slide_iff_ray (pos : Position) (ap qp : Nat) (t d : Int) (hd : d ≠ 0) :
    Position.slide pos ap qp d 129 (t + d) = true ↔ rayHit pos.board ap qp t d := by
  constructor
  · intro h
    refine slide_imp_ray pos ap qp t d 129 1 le_rfl (by omega) ?_
    simpa using h
  · exact ray_imp_slide pos ap qp t d hd

/-- Every offset in the two sliding direction sets is nonzero. -/
lemma sliding_dir_ne_zero {d : Int}
    (h : d ∈ Square.bishopDirections ∨ d ∈ Square.rookDirections) : d ≠ 0 := by
  rcases h with h | h <;>
    · simp only [Square.bishopDirections, Square.rookDirections, Square.NE, Square.NW,
        Square.SE, Square.SW, Square.N, Square.E, Square.S, Square.W,
        List.mem_cons, List.not_mem_nil, or_false] at h
      rcases h with rfl | rfl | rfl | rfl <;> decide

/-- C6: for a valid target square and either attacker color, the sliding
part of `isAttacked` accepts exactly when some direction of the relevant
set (diagonals checked against the attacker's bishop and queen, orthogonals
against the attacker's rook and queen) has a ray whose first occupied
square holds one of those two pieces, every nearer square on the ray being
valid and empty; an invalid square or any other occupant ends the ray with
no hit, and the overall result is the disjunction over the directions. -/
theorem isAttacked_sliding_characterization (pos : Position) (t : Int) (c : Nat)
    (hc : c < 2) (ht : Square.isValid t = true) :
    (Position.isAttackedSliding pos t (piece.valueOf c PieceType.BISHOP)
        (piece.valueOf c PieceType.QUEEN) Square.bishopDirections = true
      ↔ ∃ d ∈ Square.bishopDirections,
          rayHit pos.board (piece.valueOf c PieceType.BISHOP)
            (piece.valueOf c PieceType.QUEEN) t d)
    ∧ (Position.isAttackedSliding pos t (piece.valueOf c PieceType.ROOK)
        (piece.valueOf c PieceType.QUEEN) Square.rookDirections = true
      ↔ ∃ d ∈ Square.rookDirections,
          rayHit pos.board (piece.valueOf c PieceType.ROOK)
            (piece.valueOf c PieceType.QUEEN) t d) := by
  constructor
  · simp only [Position.isAttackedSliding, List.any_eq_true]
    constructor
    · rintro ⟨d, hmem, hs⟩
      exact ⟨d, hmem,
        (slide_iff_ray pos _ _ t d (sliding_dir_ne_zero (Or.inl hmem))).1 hs⟩
    · rintro ⟨d, hmem, hr⟩
      exact ⟨d, hmem,
        (slide_iff_ray pos _ _ t d (sliding_dir_ne_zero (Or.inl hmem))).2 hr⟩
  · simp only [Position.isAttackedSliding, List.any_eq_true]
    constructor
    · rintro ⟨d, hmem, hs⟩
      exact ⟨d, hmem,
        (slide_iff_ray pos _ _ t d (sliding_dir_ne_zero (Or.inr hmem))).1 hs⟩
    · rintro ⟨d, hmem, hr⟩
      exact ⟨d, hmem,
        (slide_iff_ray pos _ _ t d (sliding_dir_ne_zero (Or.inr hmem))).2 hr⟩

/-- Witness for C6 at a concrete input: attacker color white, target square
a1 on the fresh (empty) position. -/
theorem isAttacked_sliding_characterization_witness :
    ((0 : Nat) < 2 ∧ Square.isValid Square.a1 = true)
    ∧ ((Position.isAttackedSliding Position.initial Square.a1
          (piece.valueOf 0 PieceType.BISHOP) (piece.valueOf 0 PieceType.QUEEN)
          Square.bishopDirections = true
        ↔ ∃ d ∈ Square.bishopDirections,
            rayHit Position.initial.board (piece.valueOf 0 PieceType.BISHOP)
              (piece.valueOf 0 PieceType.QUEEN) Square.a1 d)
      ∧ (Position.isAttackedSliding Position.initial Square.a1
          (piece.valueOf 0 PieceType.ROOK) (piece.valueOf 0 PieceType.QUEEN)
          Square.rookDirections = true
        ↔ ∃ d ∈ Square.rookDirections,
            rayHit Position.initial.board (piece.valueOf 0 PieceType.ROOK)
              (piece.valueOf 0 PieceType.QUEEN) Square.a1 d)) :=
  ⟨⟨by decide, by decide⟩,
    isAttacked_sliding_characterization Position.initial Square.a1 0 (by decide) (by decide)⟩

lemma keyAgnostic_refl (a : Position) : keyAgnostic a a :=
  ⟨rfl, rfl, rfl, rfl, rfl, rfl, rfl, rfl⟩

lemma keyAgnostic_put (z z' : Zobrist) (p : Nat) (sq : Int) {a b : Position}
    (h : keyAgnostic a b) : keyAgnostic (Position.put z p sq a) (Position.put z' p sq b) := by
  obtain ⟨h1, h2, h3, h4, h5, h6, h7, h8⟩ := h
  exact ⟨by simp only [Position.put, h1], by simp only [Position.put, h2],
    by simp only [Position.put, h3], h4, h5, h6, h7, h8⟩

lemma keyAgnostic_setActiveColor (z z' : Zobrist) (c : Nat) {a b : Position}
    (h : keyAgnostic a b) :
    keyAgnostic (Position.setActiveColor z c a) (Position.setActiveColor z' c b) := by
  obtain ⟨h1, h2, h3, h4, h5, h6, h7, h8⟩ := h
  unfold Position.setActiveColor
  rw [h6]
  split_ifs with hc
  · exact ⟨h1, h2, h3, h4, h5, rfl, h7, h8⟩
  · exact ⟨h1, h2, h3, h4, h5, h6, h7, h8⟩

lemma keyAgnostic_setCastlingRight (z z' : Zobrist) (c : Nat) {a b : Position}
    (h : keyAgnostic a b) :
    keyAgnostic (Position.setCastlingRight z c a) (Position.setCastlingRight z' c b) := by
  obtain ⟨h1, h2, h3, h4, h5, h6, h7, h8⟩ := h
  unfold Position.setCastlingRight
  rw [h4]
  split_ifs with hc
  · exact ⟨h1, h2, h3, rfl, h5, h6, h7, h8⟩
  · exact ⟨h1, h2, h3, h4, h5, h6, h7, h8⟩

lemma keyAgnostic_setEnPassantSquare (z z' : Zobrist) (sq : Int) {a b : Position}
    (h : keyAgnostic a b) :
    keyAgnostic (Position.setEnPassantSquare z sq a) (Position.setEnPassantSquare z' sq b) := by
  obtain ⟨h1, h2, h3, h4, h5, h6, h7, h8⟩ := h
  exact ⟨h1, h2, h3, h4, rfl, h6, h7, h8⟩

lemma keyAgnostic_setHalfmoveClock (n : Int) {a b : Position} (h : keyAgnostic a b) :
    keyAgnostic (Position.setHalfmoveClock n a) (Position.setHalfmoveClock n b) := by
  obtain ⟨h1, h2, h3, h4, h5, h6, h7, h8⟩ := h
  exact ⟨h1, h2, h3, h4, h5, h6, rfl, h8⟩

lemma keyAgnostic_setFullmoveNumber (n : Int) {a b : Position} (h : keyAgnostic a b) :
    keyAgnostic (Position.setFullmoveNumber n a) (Position.setFullmoveNumber n b) := by
  obtain ⟨h1, h2, h3, h4, h5, h6, h7, h8⟩ := h
  unfold Position.setFullmoveNumber
  exact ⟨h1, h2, h3, h4, h5, h6, h7, by rw [h6]⟩

/-- The piece-placement loop threads the zobrist table only into the
hash: parses of the same token from related positions stay related. -/
lemma parsePieces_keyAgnostic (z z' : Zobrist) (t : List Char) :
    ∀ (fl rk : Int) {a b : Position}, keyAgnostic a b →
      keyAgnosticO (Fen.parsePieces z t fl rk a) (Fen.parsePieces z' t fl rk b) := by
  induction t with
  | nil =>
    intro fl rk a b h
    exact Or.inr ⟨a, b, rfl, rfl, h⟩
  | cons ch rest ih =>
    intro fl rk a b h
    simp only [Fen.parsePieces]
    by_cases h1 : Fen.toPiece ch ≠ piece.NOPIECE
    · simp only [if_pos h1]
      by_cases h2 : (file.isValid fl && Rank.isValid rk) = true
      · simp only [if_pos h2]
        exact ih _ _ (keyAgnostic_put z z' _ _ h)
      · simp only [if_neg h2]
        exact Or.inl ⟨rfl, rfl⟩
    · simp only [if_neg h1]
      by_cases h3 : ch = '/'
      · simp only [if_pos h3]
        by_cases h4 : fl ≠ file.NOFILE ∨ rk = Rank.r1
        · simp only [if_pos h4]
          exact Or.inl ⟨rfl, rfl⟩
        · simp only [if_neg h4]
          exact ih _ _ h
      · simp only [if_neg h3]
        cases hst : Fen.stoi [ch] with
        | none =>
          simp only [hst]
          exact Or.inl ⟨rfl, rfl⟩
        | some e =>
          simp only [hst]
          by_cases h5 : e < 1 ∨ 8 < e
          · simp only [if_pos h5]
            exact Or.inl ⟨rfl, rfl⟩
          · simp only [if_neg h5]
            by_cases h6 : file.isValid (fl + e - 1) = true
            · simp only [if_pos h6]
              exact ih _ _ h
            · simp only [if_neg h6]
              exact Or.inl ⟨rfl, rfl⟩

/-- The castling-token loop reads only the occupancy sets of related
positions, which agree, so parses stay related. -/
lemma parseCastling_keyAgnostic (z z' : Zobrist) (t : List Char) :
    ∀ {a b : Position}, keyAgnostic a b →
      keyAgnosticO (Fen.parseCastling z t a) (Fen.parseCastling z' t b) := by
  induction t with
  | nil =>
    intro a b h
    exact Or.inr ⟨a, b, rfl, rfl, h⟩
  | cons ch rest ih =>
    intro a b h
    have hpieces := h.2.1
    simp only [Fen.parseCastling]
    by_cases h1 : Fen.toCastling ch ≠ castling.NOCASTLING
    · simp only [if_pos h1]
      exact ih (keyAgnostic_setCastlingRight z z' _ h)
    · simp only [if_neg h1]
      by_cases h2 : Fen.toFile ch = file.NOFILE
      · simp only [if_pos h2]
        exact Or.inl ⟨rfl, rfl⟩
      · simp only [if_neg h2]
        rw [hpieces]
        by_cases h3 : b.pieces (Fen.colorOf ch) PieceType.KING = ∅
        · simp only [if_pos h3]
          exact Or.inl ⟨rfl, rfl⟩
        · simp only [if_neg h3]
          exact ih (keyAgnostic_setCastlingRight z z' _ h)

/-- `Option.bind` preserves relatedness when the bound continuations do. -/
lemma keyAgnosticO_bind {o1 o2 : Option Position} (h : keyAgnosticO o1 o2)
    (f g : Position → Option Position)
    (hfg : ∀ a b, keyAgnostic a b → keyAgnosticO (f a) (g b)) :
    keyAgnosticO (o1.bind f) (o2.bind g) := by
  rcases h with ⟨hn1, hn2⟩ | ⟨a, b, ha, hb, hab⟩
  · rw [hn1, hn2]
    exact Or.inl ⟨rfl, rfl⟩
  · rw [ha, hb]
    exact hfg a b hab

/-- The en-passant stage touches the position only through
`setEnPassantSquare`, so it preserves relatedness. -/
lemma epStage_keyAgnostic (z z' : Zobrist) (ac : Nat) (t4 : List Char) {a b : Position}
    (h : keyAgnostic a b) :
    keyAgnosticO (Fen.epStage z ac t4 a) (Fen.epStage z' ac t4 b) := by
  unfold Fen.epStage
  split_ifs with h4
  · exact Or.inr ⟨a, b, rfl, rfl, h⟩
  · rcases t4 with _ | ⟨cf, _ | ⟨cr, t4r⟩⟩
    · exact Or.inl ⟨rfl, rfl⟩
    · exact Or.inl ⟨rfl, rfl⟩
    · rcases t4r with _ | _
      · by_cases h5 : (ac = color.BLACK ∧ Fen.toRank cr = Rank.r3)
            ∨ (ac = color.WHITE ∧ Fen.toRank cr = Rank.r6)
        · simp only [if_pos h5]
          exact Or.inr ⟨_, _, rfl, rfl, keyAgnostic_setEnPassantSquare z z' _ h⟩
        · simp only [if_neg h5]
          exact Or.inl ⟨rfl, rfl⟩
      · exact Or.inl ⟨rfl, rfl⟩

/-- The counter stage reads no position state and uses only the plain
setters, so it preserves relatedness. -/
lemma clockStage_keyAgnostic (rest : List (List Char)) {a b : Position}
    (h : keyAgnostic a b) :
    keyAgnosticO (Fen.clockStage rest a) (Fen.clockStage rest b) := by
  rcases rest with _ | ⟨t5, rest2⟩
  · exact Or.inr ⟨a, b, rfl, rfl, h⟩
  · simp only [Fen.clockStage]
    cases hst : Fen.stoi t5 with
    | none =>
      simp only [hst]
      exact Or.inl ⟨rfl, rfl⟩
    | some n =>
      simp only [hst]
      by_cases h5 : n < 0
      · simp only [if_pos h5]
        exact Or.inl ⟨rfl, rfl⟩
      · simp only [if_neg h5]
        rcases rest2 with _ | ⟨t6, rest3⟩
        · exact Or.inr ⟨_, _, rfl, rfl, keyAgnostic_setHalfmoveClock n h⟩
        · cases hst6 : Fen.stoi t6 with
          | none =>
            simp only [hst6]
            exact Or.inl ⟨rfl, rfl⟩
          | some fm =>
            simp only [hst6]
            by_cases h6 : fm < 1
            · simp only [if_pos h6]
              exact Or.inl ⟨rfl, rfl⟩
            · simp only [if_neg h6]
              exact Or.inr ⟨_, _, rfl, rfl,
                keyAgnostic_setFullmoveNumber fm (keyAgnostic_setHalfmoveClock n h)⟩

/-- Parses of the same description under any two zobrist tables either both
fail or both succeed with positions that agree outside the hash. -/
lemma toPosition_keyAgnostic (z z' : Zobrist) (fen : String) :
    keyAgnosticO (Fen.toPosition z fen) (Fen.toPosition z' fen) := by
  unfold Fen.toPosition
  by_cases hlen : (Fen.splitTokens fen.toList []).length < 4
      ∨ 6 < (Fen.splitTokens fen.toList []).length
  · simp only [if_pos hlen]
    exact Or.inl ⟨rfl, rfl⟩
  · simp only [if_neg hlen]
    rcases Fen.splitTokens fen.toList [] with _ | ⟨t1, _ | ⟨t2, _ | ⟨t3, _ | ⟨t4, rest⟩⟩⟩⟩
    · exact Or.inl ⟨rfl, rfl⟩
    · exact Or.inl ⟨rfl, rfl⟩
    · exact Or.inl ⟨rfl, rfl⟩
    · exact Or.inl ⟨rfl, rfl⟩
    · simp only [Fen.toPositionTokens]
      refine keyAgnosticO_bind
        (parsePieces_keyAgnostic z z' t1 file.a Rank.r8 (keyAgnostic_refl Position.initial))
        _ _ ?_
      intro a1 b1 h1
      cases hc : Fen.colorStage t2 with
      | none =>
        simp only [hc, Option.none_bind]
        exact Or.inl ⟨rfl, rfl⟩
      | some ac =>
        simp only [hc, Option.some_bind]
        refine keyAgnosticO_bind ?_ _ _ ?_
        · split_ifs with h3
          · exact Or.inr ⟨_, _, rfl, rfl, keyAgnostic_setActiveColor z z' ac h1⟩
          · exact parseCastling_keyAgnostic z z' t3 (keyAgnostic_setActiveColor z z' ac h1)
        · intro a3 b3 h3
          refine keyAgnosticO_bind (epStage_keyAgnostic z z' ac t4 h3) _ _ ?_
          intro a4 b4 h4
          exact clockStage_keyAgnostic rest h4

/-- The rank serializer reads only the board. -/
lemma emitRank_congr {a b : Position} (hB : a.board = b.board) (rk : Int) :
    ∀ (fs : List Int) (e : Nat), Fen.emitRank a rk fs e = Fen.emitRank b rk fs e := by
  intro fs
  induction fs with
  | nil =>
    intro e
    rfl
  | cons f fs ih =>
    intro e
    simp only [Fen.emitRank, hB, ih]

/-- The placement serializer reads only the board. -/
lemma emitRanks_congr {a b : Position} (hB : a.board = b.board) :
    ∀ (rks : List Int), Fen.emitRanks a rks = Fen.emitRanks b rks := by
  intro rks
  induction rks with
  | nil => rfl
  | cons rk rks ih =>
    simp only [Fen.emitRanks, emitRank_congr hB, ih]

/-- The castling field reads only the rights bitmask. -/
lemma castlingField_congr {a b : Position} (h4 : a.castlingRights = b.castlingRights) :
    Fen.castlingField a = Fen.castlingField b := by
  unfold Fen.castlingField
  rw [h4]

/-- Serialization agrees on positions that agree outside the hash. -/
lemma fromPosition_congr {a b : Position} (h : keyAgnostic a b) :
    Fen.fromPosition a = Fen.fromPosition b := by
  obtain ⟨h1, h2, h3, h4, h5, h6, h7, h8⟩ := h
  unfold Fen.fromPosition Position.getFullmoveNumber
  rw [emitRanks_congr h1, castlingField_congr h4, h5, h6, h7, h8]

/-- C8: parsing the standard starting description and re-serializing the
resulting position reproduces exactly the standard string, character for
character — castling field `KQkq`, en-passant dash, halfmove clock 0 and
fullmove number 1 included — for any zobrist table. -/
theorem standard_roundtrip (z : Zobrist) :
    (Fen.toPosition z Fen.STANDARDPOSITION).bind Fen.fromPosition
      = some Fen.STANDARDPOSITION := by
  have hzero : (Fen.toPosition zZero Fen.STANDARDPOSITION).bind Fen.fromPosition
      = some Fen.STANDARDPOSITION := by decide
  rcases toPosition_keyAgnostic z zZero Fen.STANDARDPOSITION
    with ⟨h1, h2⟩ | ⟨a, b, ha, hb, hab⟩
  · rw [h2] at hzero
    exact absurd hzero (by simp)
  · rw [hb] at hzero
    have hfb : Fen.fromPosition b = some Fen.STANDARDPOSITION := by simpa using hzero
    rw [ha]
    show Fen.fromPosition a = some Fen.STANDARDPOSITION
    rw [fromPosition_congr hab]
    exact hfb

/-- C7 (refutation of the claim as stated): the active-color parser
lowercases its character first, so the uppercase letter `W` — a single
character other than the letters `w` and `b` — is accepted and parsing
succeeds rather than failing. -/
theorem toPosition_uppercase_W_accepted :
    ((Fen.splitTokens ("8/8/8/8/8/8/8/8 W - -").toList []).get? 1 = some ['W']
      ∧ 'W' ≠ 'w' ∧ 'W' ≠ 'b')
    ∧ (Fen.toPosition zZero "8/8/8/8/8/8/8/8 W - -").isSome = true :=
  ⟨⟨by decide, by decide, by decide⟩, by decide⟩

/-- C7 as amended: parsing fails whenever the active-color field is a
single character whose ASCII-lowercased form is neither `w` nor `b`
(uppercase `W` and `B` are accepted because of the lowercasing). -/
theorem toPosition_rejects_unknown_color (z : Zobrist) (fen : String) (c : Char)
    (h2 : (Fen.splitTokens fen.toList []).get? 1 = some [c])
    (hw : asciiToLower c ≠ 'w') (hb : asciiToLower c ≠ 'b') :
    Fen.toPosition z fen = none := by
  have hcol : Fen.toColor c = color.NOCOLOR := by
    unfold Fen.toColor
    rw [if_neg hw, if_neg hb]
  have hcs : Fen.colorStage [c] = none := by
    simp [Fen.colorStage, hcol]
  unfold Fen.toPosition
  generalize hts : Fen.splitTokens fen.toList [] = ts at h2 ⊢
  by_cases hlen : ts.length < 4 ∨ 6 < ts.length
  · simp only [hlen, if_true]
  · simp only [hlen, if_false]
    rcases ts with _ | ⟨t1, _ | ⟨t2, _ | ⟨t3, _ | ⟨t4, rest⟩⟩⟩⟩
    · rfl
    · rfl
    · rfl
    · rfl
    · simp only [List.get?] at h2
      injection h2 with h2
      subst h2
      simp only [Fen.toPositionTokens, hcs]
      cases hp : Fen.parsePieces z t1 file.a Rank.r8 Position.initial <;>
        simp [hp]

/-- Witness for the amended C7 at a concrete input: the letter `x` in the
active-color field is rejected. -/
theorem toPosition_rejects_unknown_color_witness :
    ((Fen.splitTokens ("8/8/8/8/8/8/8/8 x - -").toList []).get? 1 = some ['x']
      ∧ asciiToLower 'x' ≠ 'w' ∧ asciiToLower 'x' ≠ 'b')
    ∧ Fen.toPosition zZero "8/8/8/8/8/8/8/8 x - -" = none :=
  ⟨⟨by decide, by decide, by decide⟩,
    toPosition_rejects_unknown_color zZero "8/8/8/8/8/8/8/8 x - -" 'x'
      (by decide) (by decide) (by decide)⟩

/-- C2 (refutation backing the code_bug finding): with a well-formed table,
the incrementally maintained hash matches the from-scratch recomputation
before the move, but after the rook move h1-h2 clears the white-kingside
castling right it does not: `clearCastling` folds in the table entry at
index `newCastlingRights ^ castlingRights` computed after `castlingRights`
has already been overwritten, i.e. the (uninitialized) entry at index 0,
so the cleared right's contribution is never removed from the hash. -/
theorem clearCastling_hash_drift :
    Zobrist.wellFormed zC2
    ∧ computeHash zC2 c2pre = c2pre.zobristKey
    ∧ (Position.makeMove zC2 c2move c2pre).map
        (fun p => decide (computeHash zC2 p = p.zobristKey)) = some false := by
  refine ⟨⟨by decide, by decide⟩, by decide, by decide⟩

/-- C1 (refutation of the claim as stated): the three listed
caller-discipline preconditions — origin piece on its origin square (in
both representations), target piece on the capture square, canonical
castling target — all hold for the castling move e1-g1 on a fully
consistent position with a knight parked on f1, yet makeMove followed by
undoMove does not restore the board: the rook relocation overwrites f1 and
the undo leaves it empty. -/
theorem makeMove_undoMove_precondition_counterexample :
    (c1pre.board c1move.originSquare = c1move.originPiece
      ∧ c1move.originSquare ∈
          c1pre.pieces (piece.getColor c1move.originPiece) (piece.getType c1move.originPiece)
      ∧ c1pre.board c1move.captureSquare = c1move.targetPiece
      ∧ c1move.targetSquare = Square.g1)
    ∧ ((Position.makeMove zZero c1move c1pre).bind (Position.undoMove zZero c1move)).map
        (fun p => p.board Square.f1) = some piece.NOPIECE
    ∧ c1pre.board Square.f1 = piece.valueOf color.WHITE PieceType.KNIGHT :=
  ⟨⟨by decide, by decide, by decide, by decide⟩, by decide, by decide⟩

@[simp] lemma put_board (z : Zobrist) (p : Nat) (sq : Int) (pos : Position) :
    (Position.put z p sq pos).board = fun s => if s = sq then p else pos.board s := rfl

@[simp] lemma put_pieces (z : Zobrist) (p : Nat) (sq : Int) (pos : Position) :
    (Position.put z p sq pos).pieces = fun c2 t2 =>
      if c2 = piece.getColor p ∧ t2 = piece.getType p then insert sq (pos.pieces c2 t2)
      else pos.pieces c2 t2 := rfl

@[simp] lemma put_material (z : Zobrist) (p : Nat) (sq : Int) (pos : Position) :
    (Position.put z p sq pos).material = fun c2 =>
      if c2 = piece.getColor p then pos.material c2 + PieceType.getValue (piece.getType p)
      else pos.material c2 := rfl

@[simp] lemma remove_board (z : Zobrist) (sq : Int) (pos : Position) :
    (Position.remove z sq pos).2.board = fun s =>
      if s = sq then piece.NOPIECE else pos.board s := rfl

@[simp] lemma remove_pieces (z : Zobrist) (sq : Int) (pos : Position) :
    (Position.remove z sq pos).2.pieces = fun c2 t2 =>
      if c2 = piece.getColor (pos.board sq) ∧ t2 = piece.getType (pos.board sq) then
        (pos.pieces c2 t2).erase sq
      else pos.pieces c2 t2 := rfl

@[simp] lemma remove_material (z : Zobrist) (sq : Int) (pos : Position) :
    (Position.remove z sq pos).2.material = fun c2 =>
      if c2 = piece.getColor (pos.board sq) then
        pos.material c2 - PieceType.getValue (piece.getType (pos.board sq))
      else pos.material c2 := rfl

lemma opposite_opposite (c : Nat) : color.opposite (color.opposite c) = c := by
  simp [color.opposite, Nat.xor_assoc]

lemma insert_erase_insert_erase {a b : Int} {bb : Finset Int}
    (h1 : a ∈ bb) (h2 : b ∉ bb) :
    insert a ((insert b (bb.erase a)).erase b) = bb := by
  rw [Finset.erase_insert (fun hm => h2 (Finset.mem_of_mem_erase hm))]
  exact Finset.insert_erase h1

lemma insert_insert_erase_erase {a b : Int} {bb : Finset Int}
    (h1 : a ∈ bb) (h2 : b ∈ bb) (hab : a ≠ b) :
    insert b (insert a ((bb.erase b).erase a)) = bb := by
  rw [Finset.insert_erase (Finset.mem_erase.mpr ⟨hab, h1⟩)]
  exact Finset.insert_erase h2

lemma capture_both_rows {a b : Int} {bb : Finset Int}
    (h1 : a ∈ bb) (h2 : b ∈ bb) (hab : a ≠ b) :
    insert b (insert a ((insert b ((bb.erase b).erase a)).erase b)) = bb := by
  rw [Finset.erase_insert (fun hm =>
    absurd (Finset.mem_of_mem_erase hm) (Finset.not_mem_erase _ _))]
  exact insert_insert_erase_erase h1 h2 hab

lemma reinsert_same_square {b : Int} {bb : Finset Int} (h2 : b ∈ bb) :
    insert b ((insert b (bb.erase b)).erase b) = bb := by
  rw [Finset.erase_insert (Finset.not_mem_erase _ _)]
  exact Finset.insert_erase h2

lemma castle_both_rows {a b c d : Int} {bb : Finset Int}
    (ha : a ∈ bb) (hc : c ∈ bb) (hb : b ∉ bb) (hd : d ∉ bb)
    (hdb : d ≠ b) (hca : c ≠ a) :
    insert a ((insert c ((insert d ((insert b (bb.erase a)).erase c)).erase d)).erase b)
      = bb := by
  rw [Finset.erase_insert (fun hm =>
    (Finset.mem_insert.mp (Finset.mem_of_mem_erase hm)).elim hdb
      (fun h2 => hd (Finset.mem_of_mem_erase h2)))]
  rw [Finset.insert_erase (Finset.mem_insert_of_mem (Finset.mem_erase.mpr ⟨hca, hc⟩))]
  rw [Finset.erase_insert (fun hm => hb (Finset.mem_of_mem_erase hm))]
  exact Finset.insert_erase ha

/-- The make/undo roundtrip for a canonical castling move, stated over
abstract pairwise-distinct king/rook origin and target squares so that
the same argument covers all four castling variants. -/
lemma castling_roundtrip_aux (z : Zobrist) (m : Move) (pos : Position)
    (ko kt ro rt : Int)
    (hcast : m.type = movetype.CASTLING) (hnc : m.targetPiece = piece.NOPIECE)
    (ht : m.targetSquare = kt) (ho : m.originSquare = ko)
    (hrs : Move.castlingRookSquares kt = some (ro, rt))
    (d1 : ko ≠ kt) (d2 : ko ≠ ro) (d3 : ko ≠ rt)
    (d4 : kt ≠ ro) (d5 : kt ≠ rt) (d6 : ro ≠ rt)
    (h1 : piece.isValid m.originPiece = true)
    (h2 : pos.board ko = m.originPiece)
    (h3 : ko ∈ pos.pieces (piece.getColor m.originPiece) (piece.getType m.originPiece))
    (hb_tg : pos.board kt = piece.NOPIECE)
    (hm_tg : ∀ c, c < 2 → ∀ t, t < 6 → kt ∉ pos.pieces c t)
    (hrk1 : piece.isValid (pos.board ro) = true)
    (hrk2 : ro ∈ pos.pieces (piece.getColor (pos.board ro)) (piece.getType (pos.board ro)))
    (hrk3 : pos.board rt = piece.NOPIECE)
    (hrk4 : ∀ c, c < 2 → ∀ t, t < 6 → rt ∉ pos.pieces c t) :
    ∃ p2, (Position.makeMove z m pos).bind (Position.undoMove z m) = some p2
      ∧ p2.board = pos.board ∧ p2.pieces = pos.pieces ∧ p2.material = pos.material
      ∧ p2.castlingRights = pos.castlingRights ∧ p2.enPassantSquare = pos.enPassantSquare
      ∧ p2.activeColor = pos.activeColor ∧ p2.halfmoveClock = pos.halfmoveClock
      ∧ p2.zobristKey = pos.zobristKey ∧ p2.halfmoveNumber = pos.halfmoveNumber
      ∧ p2.statesSize = pos.statesSize := by
  have hop12 : m.originPiece < 12 := by simpa [piece.isValid] using h1
  have hrk12 : pos.board ro < 12 := by simpa [piece.isValid] using hrk1
  have hcol2 : ∀ p : Nat, p < 12 → piece.getColor p < 2 := by
    intro p hp
    unfold piece.getColor
    omega
  have htyp6 : ∀ p : Nat, piece.getType p < 6 := by
    intro p
    exact Nat.mod_lt _ (by norm_num)
  have hCP : ¬m.type = movetype.PAWNPROMOTION := by
    rw [hcast]
    decide
  have hCP2 : ¬movetype.CASTLING = movetype.PAWNPROMOTION := by decide
  have hCD2 : ¬movetype.CASTLING = movetype.PAWNDOUBLE := by decide
  have d1x : kt ≠ ko := Ne.symm d1
  have d2x : ro ≠ ko := Ne.symm d2
  have d3x : rt ≠ ko := Ne.symm d3
  have d4x : ro ≠ kt := Ne.symm d4
  have d5x : rt ≠ kt := Ne.symm d5
  have d6x : rt ≠ ro := Ne.symm d6
  simp only [Position.makeMove, Position.undoMove, hcast, hnc, ht, ho, hrs, hCP,
    Option.map_some', Option.some_bind, if_false, ite_false, ite_true, if_true, ne_eq,
    not_true, not_false_iff, not_false_eq_true, ite_not, eq_self_iff_true]
  refine ⟨_, rfl, ?_, ?_, ?_, ?_, ?_, ?_, ?_, ?_, ?_, ?_⟩
  · simp [apply_ite Position.board, hCP, hCP2, hCD2, h2, d1, d2, d3, d4, d5, d6, d1x, d2x, d3x,
      d4x, d5x, d6x]
    funext s
    by_cases hs1 : s = ko
    · simp [hs1, h2, hCP2, hCD2, d1, d2, d3, d1x, d2x, d3x]
    · by_cases hs2 : s = kt
      · simp [hs1, hs2, hb_tg, hCP2, hCD2, d4, d5, d4x, d5x, d1x]
      · by_cases hs3 : s = ro
        · simp [hs1, hs2, hs3, hCP2, hCD2, d2x, d4x, d6, d6x]
        · by_cases hs4 : s = rt
          · simp [hs1, hs2, hs3, hs4, hrk3, hCP2, hCD2, d3x, d5x, d6x]
          · simp [hs1, hs2, hs3, hs4, hCP2, hCD2]
  · simp [apply_ite Position.pieces, apply_ite Position.board, hCP, hCP2, hCD2, h2, d1, d2, d3, d4,
      d5, d6, d1x, d2x, d3x, d4x, d5x, d6x]
    funext c t
    by_cases hO : c = piece.getColor m.originPiece ∧ t = piece.getType m.originPiece
    · by_cases hK : c = piece.getColor (pos.board ro) ∧ t = piece.getType (pos.board ro)
      · have hako : ko ∈ pos.pieces c t := by
          rw [hO.1, hO.2]
          exact h3
        have haro : ro ∈ pos.pieces c t := by
          rw [hK.1, hK.2]
          exact hrk2
        have hbkt : kt ∉ pos.pieces c t :=
          hm_tg c (by rw [hO.1]; exact hcol2 _ hop12) t (by rw [hO.2]; exact htyp6 _)
        have hdrt : rt ∉ pos.pieces c t :=
          hrk4 c (by rw [hO.1]; exact hcol2 _ hop12) t (by rw [hO.2]; exact htyp6 _)
        simp only [if_pos hO, if_pos hK]
        exact castle_both_rows hako haro hbkt hdrt d5x d2x
      · have hako : ko ∈ pos.pieces c t := by
          rw [hO.1, hO.2]
          exact h3
        have hbkt : kt ∉ pos.pieces c t :=
          hm_tg c (by rw [hO.1]; exact hcol2 _ hop12) t (by rw [hO.2]; exact htyp6 _)
        simp only [if_pos hO, if_neg hK]
        exact insert_erase_insert_erase hako hbkt
    · by_cases hK : c = piece.getColor (pos.board ro) ∧ t = piece.getType (pos.board ro)
      · have haro : ro ∈ pos.pieces c t := by
          rw [hK.1, hK.2]
          exact hrk2
        have hdrt : rt ∉ pos.pieces c t :=
          hrk4 c (by rw [hK.1]; exact hcol2 _ hrk12) t (by rw [hK.2]; exact htyp6 _)
        simp only [if_neg hO, if_pos hK]
        exact insert_erase_insert_erase haro hdrt
      · simp only [if_neg hO, if_neg hK]
  · simp [apply_ite Position.material, apply_ite Position.board, hCP, hCP2, hCD2, h2, d1, d2, d3, d4,
      d5, d6, d1x, d2x, d3x, d4x, d5x, d6x]
    funext c2
    split_ifs <;> ring
  · simp [apply_ite Position.castlingRights, apply_ite Position.states,
      apply_ite Position.statesSize, hCP, hCP2, hCD2]
  · simp [apply_ite Position.enPassantSquare, apply_ite Position.states,
      apply_ite Position.statesSize, hCP, hCP2, hCD2]
  · simp [apply_ite Position.activeColor, opposite_opposite, hCP, hCP2, hCD2]
  · simp [apply_ite Position.halfmoveClock, apply_ite Position.states,
      apply_ite Position.statesSize, hCP, hCP2, hCD2]
  · simp [apply_ite Position.zobristKey, apply_ite Position.states,
      apply_ite Position.statesSize, hCP, hCP2, hCD2]
  · simp [apply_ite Position.halfmoveNumber, hCP, hCP2, hCD2]
  · simp [apply_ite Position.statesSize, hCP, hCP2, hCD2]

/-- C1 as amended: under the full caller-discipline precondition
`MakeUndoPre` — the origin piece sits on its origin square in both board
and occupancy representations, origin and target squares differ,
promotions carry a real piece type, the target square's occupancy
memberships match the encoded target piece, captures find the target
piece on the capture square, and castling moves are canonical
non-captures whose rook sits on its corner square with an empty transit
square — `makeMove` followed by `undoMove` on the same move succeeds and
restores every replayed field of the position: board, occupancy sets,
material counts, castling rights, en-passant square, active color,
halfmove clock, zobrist key, halfmove number and history-stack size. -/
theorem makeMove_undoMove_roundtrip (z : Zobrist) (m : Move) (pos : Position)
    (H : MakeUndoPre pos m) :
    ∃ p2, (Position.makeMove z m pos).bind (Position.undoMove z m) = some p2
      ∧ p2.board = pos.board ∧ p2.pieces = pos.pieces ∧ p2.material = pos.material
      ∧ p2.castlingRights = pos.castlingRights ∧ p2.enPassantSquare = pos.enPassantSquare
      ∧ p2.activeColor = pos.activeColor ∧ p2.halfmoveClock = pos.halfmoveClock
      ∧ p2.zobristKey = pos.zobristKey ∧ p2.halfmoveNumber = pos.halfmoveNumber
      ∧ p2.statesSize = pos.statesSize := by
  obtain ⟨h1, h2, h3, h4, h5, h6, h7, h8, h9⟩ := H
  by_cases hcast : m.type = movetype.CASTLING
  · -- castling: king and rook both move between fixed, pairwise distinct squares
    obtain ⟨hnc, hcanon, hrook⟩ := h9 hcast
    have hb_tg : pos.board m.targetSquare = piece.NOPIECE := h7 (Or.inl hnc)
    have hm_tg : ∀ c, c < 2 → ∀ t, t < 6 → m.targetSquare ∉ pos.pieces c t := by
      intro c hc t ht hmem
      exact (h6 c hc t ht hmem).1 hnc
    rcases hcanon with ⟨ht, ho⟩ | ⟨ht, ho⟩ | ⟨ht, ho⟩ | ⟨ht, ho⟩
    · rw [ht] at hrook hb_tg hm_tg
      rw [ho] at h2 h3
      have hrk : piece.isValid (pos.board Square.h1) = true
          ∧ Square.h1 ∈ pos.pieces (piece.getColor (pos.board Square.h1))
              (piece.getType (pos.board Square.h1))
          ∧ pos.board Square.f1 = piece.NOPIECE
          ∧ ∀ c, c < 2 → ∀ t, t < 6 → Square.f1 ∉ pos.pieces c t := hrook
      exact castling_roundtrip_aux z m pos Square.e1 Square.g1 Square.h1 Square.f1
        hcast hnc ht ho rfl (by decide) (by decide) (by decide) (by decide) (by decide)
        (by decide) h1 h2 h3 hb_tg hm_tg hrk.1 hrk.2.1 hrk.2.2.1 hrk.2.2.2
    · rw [ht] at hrook hb_tg hm_tg
      rw [ho] at h2 h3
      have hrk : piece.isValid (pos.board Square.a1) = true
          ∧ Square.a1 ∈ pos.pieces (piece.getColor (pos.board Square.a1))
              (piece.getType (pos.board Square.a1))
          ∧ pos.board Square.d1 = piece.NOPIECE
          ∧ ∀ c, c < 2 → ∀ t, t < 6 → Square.d1 ∉ pos.pieces c t := hrook
      exact castling_roundtrip_aux z m pos Square.e1 Square.c1 Square.a1 Square.d1
        hcast hnc ht ho rfl (by decide) (by decide) (by decide) (by decide) (by decide)
        (by decide) h1 h2 h3 hb_tg hm_tg hrk.1 hrk.2.1 hrk.2.2.1 hrk.2.2.2
    · rw [ht] at hrook hb_tg hm_tg
      rw [ho] at h2 h3
      have hrk : piece.isValid (pos.board Square.h8) = true
          ∧ Square.h8 ∈ pos.pieces (piece.getColor (pos.board Square.h8))
              (piece.getType (pos.board Square.h8))
          ∧ pos.board Square.f8 = piece.NOPIECE
          ∧ ∀ c, c < 2 → ∀ t, t < 6 → Square.f8 ∉ pos.pieces c t := hrook
      exact castling_roundtrip_aux z m pos Square.e8 Square.g8 Square.h8 Square.f8
        hcast hnc ht ho rfl (by decide) (by decide) (by decide) (by decide) (by decide)
        (by decide) h1 h2 h3 hb_tg hm_tg hrk.1 hrk.2.1 hrk.2.2.1 hrk.2.2.2
    · rw [ht] at hrook hb_tg hm_tg
      rw [ho] at h2 h3
      have hrk : piece.isValid (pos.board Square.a8) = true
          ∧ Square.a8 ∈ pos.pieces (piece.getColor (pos.board Square.a8))
              (piece.getType (pos.board Square.a8))
          ∧ pos.board Square.d8 = piece.NOPIECE
          ∧ ∀ c, c < 2 → ∀ t, t < 6 → Square.d8 ∉ pos.pieces c t := hrook
      exact castling_roundtrip_aux z m pos Square.e8 Square.c8 Square.a8 Square.d8
        hcast hnc ht ho rfl (by decide) (by decide) (by decide) (by decide) (by decide)
        (by decide) h1 h2 h3 hb_tg hm_tg hrk.1 hrk.2.1 hrk.2.2.1 hrk.2.2.2
  · by_cases htp : m.targetPiece = piece.NOPIECE
    · -- quiet move (no capture, no castling)
      have hb_tg : pos.board m.targetSquare = piece.NOPIECE := h7 (Or.inl htp)
      have hm_tg : ∀ c, c < 2 → ∀ t, t < 6 → m.targetSquare ∉ pos.pieces c t := by
        intro c hc t ht hmem
        have := (h6 c hc t ht hmem).1
        exact this htp
      have h4x : m.targetSquare ≠ m.originSquare := Ne.symm h4
      have hop12 : m.originPiece < 12 := by simpa [piece.isValid] using h1
      have hcol2 : ∀ p : Nat, p < 12 → piece.getColor p < 2 := by
        intro p hp
        unfold piece.getColor
        omega
      have htyp6 : ∀ p : Nat, piece.getType p < 6 := by
        intro p
        exact Nat.mod_lt _ (by norm_num)
      by_cases hpr : m.type = movetype.PAWNPROMOTION
      · have hmv12 : piece.valueOf (piece.getColor m.originPiece) m.promotion < 12 := by
          have hpl : m.promotion < 6 := h5 hpr
          have : piece.getColor m.originPiece < 2 := by
            unfold piece.getColor
            omega
          unfold piece.valueOf
          omega
        simp only [Position.makeMove, Position.undoMove, hcast, htp, hpr, Option.map_some',
          Option.some_bind, if_false, ite_false, ite_true, if_true, ne_eq, not_true,
          not_false_iff, ite_not]
        refine ⟨_, rfl, ?_, ?_, ?_, ?_, ?_, ?_, ?_, ?_, ?_, ?_⟩
        · simp [apply_ite Position.board, movetype.PAWNPROMOTION, movetype.PAWNDOUBLE, h2, h4x]
          funext s
          by_cases hso : s = m.originSquare
          · simp [hso, h2]
          · by_cases hst : s = m.targetSquare
            · simp [hso, hst, h4x, hb_tg]
            · simp [hso, hst]
        · simp [apply_ite Position.pieces, apply_ite Position.board, movetype.PAWNPROMOTION,
            movetype.PAWNDOUBLE, h2]
          funext c t
          by_cases hro : c = piece.getColor m.originPiece ∧ t = piece.getType m.originPiece
          · obtain ⟨rfl, rfl⟩ := hro
            simp only [eq_self_iff_true, and_self, if_true]
            by_cases hrm : piece.getColor m.originPiece
                  = piece.getColor (piece.valueOf (piece.getColor m.originPiece) m.promotion)
                ∧ piece.getType m.originPiece
                  = piece.getType (piece.valueOf (piece.getColor m.originPiece) m.promotion)
            · rw [if_pos hrm, if_pos hrm]
              exact insert_erase_insert_erase h3 (hm_tg _ (hcol2 _ hop12) _ (htyp6 _))
            · rw [if_neg hrm, if_neg hrm]
              exact Finset.insert_erase h3
          · rw [if_neg hro]
            by_cases hrm : c = piece.getColor (piece.valueOf (piece.getColor m.originPiece) m.promotion)
                ∧ t = piece.getType (piece.valueOf (piece.getColor m.originPiece) m.promotion)
            · rw [if_pos hrm, if_pos hrm, if_neg hro]
              exact Finset.erase_insert
                (hm_tg c (by rw [hrm.1]; exact hcol2 _ hmv12) t (by rw [hrm.2]; exact htyp6 _))
            · rw [if_neg hrm, if_neg hrm, if_neg hro]
        · simp [apply_ite Position.material, apply_ite Position.board, movetype.PAWNPROMOTION,
            movetype.PAWNDOUBLE, h2]
          funext c2
          split_ifs <;> ring
        · simp [apply_ite Position.castlingRights, apply_ite Position.states,
            apply_ite Position.statesSize]
        · simp [apply_ite Position.enPassantSquare, apply_ite Position.states,
            apply_ite Position.statesSize]
        · simp [apply_ite Position.activeColor, opposite_opposite]
        · simp [apply_ite Position.halfmoveClock, apply_ite Position.states,
            apply_ite Position.statesSize]
        · simp [apply_ite Position.zobristKey, apply_ite Position.states,
            apply_ite Position.statesSize]
        · simp [apply_ite Position.halfmoveNumber]
        · simp [apply_ite Position.statesSize]
      · simp only [Position.makeMove, Position.undoMove, hcast, htp, hpr, Option.map_some',
          Option.some_bind, if_false, ite_false, ite_true, if_true, ne_eq, not_true,
          not_false_iff, ite_not]
        refine ⟨_, rfl, ?_, ?_, ?_, ?_, ?_, ?_, ?_, ?_, ?_, ?_⟩
        · simp [apply_ite Position.board, hpr, h2, h4x]
          funext s
          by_cases hso : s = m.originSquare
          · simp [hso, h2]
          · by_cases hst : s = m.targetSquare
            · simp [hso, hst, h4x, hb_tg]
            · simp [hso, hst]
        · simp [apply_ite Position.pieces, apply_ite Position.board, hpr, h2]
          funext c t
          by_cases hro : c = piece.getColor m.originPiece ∧ t = piece.getType m.originPiece
          · obtain ⟨rfl, rfl⟩ := hro
            simp only [eq_self_iff_true, and_self, if_true]
            exact insert_erase_insert_erase h3 (hm_tg _ (hcol2 _ hop12) _ (htyp6 _))
          · rw [if_neg hro, if_neg hro, if_neg hro, if_neg hro]
        · simp [apply_ite Position.material, apply_ite Position.board, hpr, h2]
          funext c2
          split_ifs <;> ring
        · simp [apply_ite Position.castlingRights, apply_ite Position.states,
            apply_ite Position.statesSize, hpr]
        · simp [apply_ite Position.enPassantSquare, apply_ite Position.states,
            apply_ite Position.statesSize, hpr]
        · simp [apply_ite Position.activeColor, opposite_opposite, hpr]
        · simp [apply_ite Position.halfmoveClock, apply_ite Position.states,
            apply_ite Position.statesSize, hpr]
        · simp [apply_ite Position.zobristKey, apply_ite Position.states,
            apply_ite Position.statesSize, hpr]
        · simp [apply_ite Position.halfmoveNumber, hpr]
        · simp [apply_ite Position.statesSize, hpr]
    · -- capture (a target piece is present), no castling
      obtain ⟨htpv, hcb, hcm, hoc⟩ := h8 htp
      have htp12 : m.targetPiece < 12 := by simpa [piece.isValid] using htpv
      have h4x : m.targetSquare ≠ m.originSquare := Ne.symm h4
      have hop12 : m.originPiece < 12 := by simpa [piece.isValid] using h1
      have hcol2 : ∀ p : Nat, p < 12 → piece.getColor p < 2 := by
        intro p hp
        unfold piece.getColor
        omega
      have htyp6 : ∀ p : Nat, piece.getType p < 6 := by
        intro p
        exact Nat.mod_lt _ (by norm_num)
      by_cases hep : m.type = movetype.ENPASSANT
      · -- en-passant capture: the captured pawn sits one rank behind the target
        have hpr : ¬m.type = movetype.PAWNPROMOTION := by
          rw [hep]
          decide
        have hb_tg : pos.board m.targetSquare = piece.NOPIECE := h7 (Or.inr hep)
        have hm_tg : ∀ c, c < 2 → ∀ t, t < 6 → m.targetSquare ∉ pos.pieces c t := by
          intro c hc t ht hmem
          exact (h6 c hc t ht hmem).2.1 hep
        have htc : m.targetSquare ≠ m.captureSquare := by
          unfold Move.captureSquare
          rw [if_pos hep]
          by_cases hw : piece.getColor m.originPiece = color.WHITE
          · rw [if_pos hw]
            simp only [Square.S]
            omega
          · rw [if_neg hw]
            simp only [Square.N]
            omega
        have hco : m.captureSquare ≠ m.originSquare := Ne.symm hoc
        have hct : m.captureSquare ≠ m.targetSquare := Ne.symm htc
        simp only [Position.makeMove, Position.undoMove, hcast, htp, hpr, Option.map_some',
          Option.some_bind, if_false, ite_false, ite_true, if_true, ne_eq, not_true,
          not_false_iff, not_false_eq_true, ite_not]
        refine ⟨_, rfl, ?_, ?_, ?_, ?_, ?_, ?_, ?_, ?_, ?_, ?_⟩
        · simp [apply_ite Position.board, hpr, h2, h4x, h4, hcb, hoc, htc]
          funext s
          by_cases hsc : s = m.captureSquare
          · simp [hsc, hcb, hco, hct]
          · by_cases hso : s = m.originSquare
            · simp [hsc, hso, h2, h4, hoc]
            · by_cases hst : s = m.targetSquare
              · simp [hsc, hso, hst, h4x, hb_tg, htc]
              · simp [hsc, hso, hst]
        · simp [apply_ite Position.pieces, apply_ite Position.board, hpr, h2, h4, hcb, hoc]
          funext c t
          by_cases hT : c = piece.getColor m.targetPiece ∧ t = piece.getType m.targetPiece
          · by_cases hO : c = piece.getColor m.originPiece ∧ t = piece.getType m.originPiece
            · have hOr : m.originSquare ∈ pos.pieces c t := by
                rw [hO.1, hO.2]
                exact h3
              have hCm : m.captureSquare ∈ pos.pieces c t := by
                rw [hT.1, hT.2]
                exact hcm
              have hTn : m.targetSquare ∉ pos.pieces c t :=
                hm_tg c (by rw [hT.1]; exact hcol2 _ htp12) t (by rw [hT.2]; exact htyp6 _)
              simp only [if_pos hT, if_pos hO]
              rw [Finset.erase_insert (fun hm => hTn
                (Finset.mem_of_mem_erase (Finset.mem_of_mem_erase hm)))]
              exact insert_insert_erase_erase hOr hCm hoc
            · have hCm : m.captureSquare ∈ pos.pieces c t := by
                rw [hT.1, hT.2]
                exact hcm
              simp only [if_pos hT, if_neg hO]
              exact Finset.insert_erase hCm
          · by_cases hO : c = piece.getColor m.originPiece ∧ t = piece.getType m.originPiece
            · have hOr : m.originSquare ∈ pos.pieces c t := by
                rw [hO.1, hO.2]
                exact h3
              have hTn : m.targetSquare ∉ pos.pieces c t :=
                hm_tg c (by rw [hO.1]; exact hcol2 _ hop12) t (by rw [hO.2]; exact htyp6 _)
              simp only [if_neg hT, if_pos hO]
              exact insert_erase_insert_erase hOr hTn
            · simp only [if_neg hT, if_neg hO]
        · simp [apply_ite Position.material, apply_ite Position.board, hpr, h2, h4, hcb, hoc]
          funext c2
          split_ifs <;> ring
        · simp [apply_ite Position.castlingRights, apply_ite Position.states,
            apply_ite Position.statesSize, hpr]
        · simp [apply_ite Position.enPassantSquare, apply_ite Position.states,
            apply_ite Position.statesSize, hpr]
        · simp [apply_ite Position.activeColor, opposite_opposite, hpr]
        · simp [apply_ite Position.halfmoveClock, apply_ite Position.states,
            apply_ite Position.statesSize, hpr]
        · simp [apply_ite Position.zobristKey, apply_ite Position.states,
            apply_ite Position.statesSize, hpr]
        · simp [apply_ite Position.halfmoveNumber, hpr]
        · simp [apply_ite Position.statesSize, hpr]
      · -- ordinary capture: the capture square is the target square
        have hcs : m.captureSquare = m.targetSquare := by
          simp [Move.captureSquare, hep]
        rw [hcs] at hcb hcm hoc
        have hm_tgB : ∀ c, c < 2 → ∀ t, t < 6 →
            ¬(c = piece.getColor m.targetPiece ∧ t = piece.getType m.targetPiece) →
            m.targetSquare ∉ pos.pieces c t := by
          intro c hc t ht hne hmem
          exact hne ⟨(h6 c hc t ht hmem).2.2.1, (h6 c hc t ht hmem).2.2.2⟩
        by_cases hpr : m.type = movetype.PAWNPROMOTION
        · -- capture with promotion
          have hmv12 : piece.valueOf (piece.getColor m.originPiece) m.promotion < 12 := by
            have hpl : m.promotion < 6 := h5 hpr
            have : piece.getColor m.originPiece < 2 := by
              unfold piece.getColor
              omega
            unfold piece.valueOf
            omega
          simp only [Position.makeMove, Position.undoMove, hcast, htp, hpr, hcs,
            Option.map_some', Option.some_bind, if_false, ite_false, ite_true, if_true,
            ne_eq, not_true, not_false_iff, not_false_eq_true, ite_not]
          refine ⟨_, rfl, ?_, ?_, ?_, ?_, ?_, ?_, ?_, ?_, ?_, ?_⟩
          · simp [apply_ite Position.board, movetype.PAWNPROMOTION, movetype.PAWNDOUBLE,
              h2, h4x, h4, hcb]
            funext s
            by_cases hst : s = m.targetSquare
            · simp [hst, hcb]
            · by_cases hso : s = m.originSquare
              · simp [hst, hso, h2, h4]
              · simp [hst, hso]
          · simp [apply_ite Position.pieces, apply_ite Position.board, movetype.PAWNPROMOTION,
              movetype.PAWNDOUBLE, h2, h4, hcb]
            funext c t
            by_cases hT : c = piece.getColor m.targetPiece ∧ t = piece.getType m.targetPiece
            · by_cases hO : c = piece.getColor m.originPiece ∧ t = piece.getType m.originPiece
              · have hOr : m.originSquare ∈ pos.pieces c t := by
                  rw [hO.1, hO.2]
                  exact h3
                have hTm : m.targetSquare ∈ pos.pieces c t := by
                  rw [hT.1, hT.2]
                  exact hcm
                by_cases hM : c = piece.getColor (piece.valueOf (piece.getColor m.originPiece)
                      m.promotion)
                    ∧ t = piece.getType (piece.valueOf (piece.getColor m.originPiece) m.promotion)
                · simp only [if_pos hT, if_pos hO, if_pos hM]
                  exact capture_both_rows hOr hTm h4
                · simp only [if_pos hT, if_pos hO, if_neg hM]
                  exact insert_insert_erase_erase hOr hTm h4
              · have hTm : m.targetSquare ∈ pos.pieces c t := by
                  rw [hT.1, hT.2]
                  exact hcm
                by_cases hM : c = piece.getColor (piece.valueOf (piece.getColor m.originPiece)
                      m.promotion)
                    ∧ t = piece.getType (piece.valueOf (piece.getColor m.originPiece) m.promotion)
                · simp only [if_pos hT, if_neg hO, if_pos hM]
                  exact reinsert_same_square hTm
                · simp only [if_pos hT, if_neg hO, if_neg hM]
                  exact Finset.insert_erase hTm
            · by_cases hO : c = piece.getColor m.originPiece ∧ t = piece.getType m.originPiece
              · have hOr : m.originSquare ∈ pos.pieces c t := by
                  rw [hO.1, hO.2]
                  exact h3
                have hTn : m.targetSquare ∉ pos.pieces c t :=
                  hm_tgB c (by rw [hO.1]; exact hcol2 _ hop12) t (by rw [hO.2]; exact htyp6 _) hT
                by_cases hM : c = piece.getColor (piece.valueOf (piece.getColor m.originPiece)
                      m.promotion)
                    ∧ t = piece.getType (piece.valueOf (piece.getColor m.originPiece) m.promotion)
                · simp only [if_neg hT, if_pos hO, if_pos hM]
                  exact insert_erase_insert_erase hOr hTn
                · simp only [if_neg hT, if_pos hO, if_neg hM]
                  exact Finset.insert_erase hOr
              · by_cases hM : c = piece.getColor (piece.valueOf (piece.getColor m.originPiece)
                      m.promotion)
                    ∧ t = piece.getType (piece.valueOf (piece.getColor m.originPiece) m.promotion)
                · have hTn : m.targetSquare ∉ pos.pieces c t :=
                    hm_tgB c (by rw [hM.1]; exact hcol2 _ hmv12) t (by rw [hM.2]; exact htyp6 _) hT
                  simp only [if_neg hT, if_neg hO, if_pos hM]
                  exact Finset.erase_insert hTn
                · simp only [if_neg hT, if_neg hO, if_neg hM]
          · simp [apply_ite Position.material, apply_ite Position.board, movetype.PAWNPROMOTION,
              movetype.PAWNDOUBLE, h2, h4, hcb]
            funext c2
            split_ifs <;> ring
          · simp [apply_ite Position.castlingRights, apply_ite Position.states,
              apply_ite Position.statesSize]
          · simp [apply_ite Position.enPassantSquare, apply_ite Position.states,
              apply_ite Position.statesSize]
          · simp [apply_ite Position.activeColor, opposite_opposite]
          · simp [apply_ite Position.halfmoveClock, apply_ite Position.states,
              apply_ite Position.statesSize]
          · simp [apply_ite Position.zobristKey, apply_ite Position.states,
              apply_ite Position.statesSize]
          · simp [apply_ite Position.halfmoveNumber]
          · simp [apply_ite Position.statesSize]
        · -- ordinary capture, no promotion
          simp only [Position.makeMove, Position.undoMove, hcast, htp, hpr, hcs,
            Option.map_some', Option.some_bind, if_false, ite_false, ite_true, if_true,
            ne_eq, not_true, not_false_iff, not_false_eq_true, ite_not]
          refine ⟨_, rfl, ?_, ?_, ?_, ?_, ?_, ?_, ?_, ?_, ?_, ?_⟩
          · simp [apply_ite Position.board, hpr, h2, h4x, h4, hcb]
            funext s
            by_cases hst : s = m.targetSquare
            · simp [hst, hcb]
            · by_cases hso : s = m.originSquare
              · simp [hst, hso, h2, h4]
              · simp [hst, hso]
          · simp [apply_ite Position.pieces, apply_ite Position.board, hpr, h2, h4, hcb]
            funext c t
            by_cases hT : c = piece.getColor m.targetPiece ∧ t = piece.getType m.targetPiece
            · by_cases hO : c = piece.getColor m.originPiece ∧ t = piece.getType m.originPiece
              · have hOr : m.originSquare ∈ pos.pieces c t := by
                  rw [hO.1, hO.2]
                  exact h3
                have hTm : m.targetSquare ∈ pos.pieces c t := by
                  rw [hT.1, hT.2]
                  exact hcm
                simp only [if_pos hT, if_pos hO]
                exact capture_both_rows hOr hTm h4
              · have hTm : m.targetSquare ∈ pos.pieces c t := by
                  rw [hT.1, hT.2]
                  exact hcm
                simp only [if_pos hT, if_neg hO]
                exact Finset.insert_erase hTm
            · by_cases hO : c = piece.getColor m.originPiece ∧ t = piece.getType m.originPiece
              · have hOr : m.originSquare ∈ pos.pieces c t := by
                  rw [hO.1, hO.2]
                  exact h3
                have hTn : m.targetSquare ∉ pos.pieces c t :=
                  hm_tgB c (by rw [hO.1]; exact hcol2 _ hop12) t (by rw [hO.2]; exact htyp6 _) hT
                simp only [if_neg hT, if_pos hO]
                exact insert_erase_insert_erase hOr hTn
              · simp only [if_neg hT, if_neg hO]
          · simp [apply_ite Position.material, apply_ite Position.board, hpr, h2, h4, hcb]
            funext c2
            split_ifs <;> ring
          · simp [apply_ite Position.castlingRights, apply_ite Position.states,
              apply_ite Position.statesSize, hpr]
          · simp [apply_ite Position.enPassantSquare, apply_ite Position.states,
              apply_ite Position.statesSize, hpr]
          · simp [apply_ite Position.activeColor, opposite_opposite, hpr]
          · simp [apply_ite Position.halfmoveClock, apply_ite Position.states,
              apply_ite Position.statesSize, hpr]
          · simp [apply_ite Position.zobristKey, apply_ite Position.states,
              apply_ite Position.statesSize, hpr]
          · simp [apply_ite Position.halfmoveNumber, hpr]
          · simp [apply_ite Position.statesSize, hpr]

/-- Witness for C1 at a concrete input: the quiet pawn push a2-a3 on a
one-pawn position satisfies the full precondition, and making then
undoing it restores every replayed field of the position. -/
theorem makeMove_undoMove_roundtrip_witness :
    MakeUndoPre c1wpos c1wmove
      ∧ ∃ p2, (Position.makeMove zZero c1wmove c1wpos).bind
            (Position.undoMove zZero c1wmove) = some p2
          ∧ p2.board = c1wpos.board ∧ p2.pieces = c1wpos.pieces
          ∧ p2.material = c1wpos.material
          ∧ p2.castlingRights = c1wpos.castlingRights
          ∧ p2.enPassantSquare = c1wpos.enPassantSquare
          ∧ p2.activeColor = c1wpos.activeColor
          ∧ p2.halfmoveClock = c1wpos.halfmoveClock
          ∧ p2.zobristKey = c1wpos.zobristKey
          ∧ p2.halfmoveNumber = c1wpos.halfmoveNumber
          ∧ p2.statesSize = c1wpos.statesSize :=
  by
  have hnm : ∀ c t : Nat, (32 : Int) ∉ c1wpos.pieces c t := by
    intro c t
    show (32 : Int) ∉ (if c = 0 ∧ t = 0 then ({16} : Finset Int) else ∅)
    split
    · decide
    · decide
  have hpre : MakeUndoPre c1wpos c1wmove := by
    refine ⟨by decide, by decide, by decide, by decide, by decide, ?_, by decide, by decide,
      fun hc => absurd hc (by decide)⟩
    intro c hc t ht hmem
    exact absurd hmem (hnm c t)
  exact ⟨hpre, makeMove_undoMove_roundtrip zZero c1wmove c1wpos hpre⟩

end Pulse
